import Mathlib

set_option maxHeartbeats 2000000
set_option maxRecDepth 8000

/-!
Shallow embedding of the HQFBP core (hqfbp-rs) and proofs about it.

Conventions of the embedding:
* Rust `u8`/byte buffers (`Bytes`, `Vec<u8>`) are `List Nat`; a well-formed
  buffer has all elements below 256, which is stated as a hypothesis where a
  proof needs it.
* Rust `String` is modelled by its byte list (all string literals appearing
  in the repository are ASCII, where UTF-8 bytes and code points coincide).
* Machine integers are `Nat` (or `Int` for `i8`); range constraints of the
  Rust types appear as explicit hypotheses or explicit range checks exactly
  where the Rust code enforces them (e.g. CBOR integer decoders reject
  values that do not fit the requested width).
* Fallible Rust functions returning `Result` are `Except Unit` (the error
  payloads of the repository are strings and enum tags that no verified
  property inspects).
* Calls into external crates (flate2, brotli, lzma-rs, raptorq,
  reed-solomon, and the floating-point LT sampler) are NOT code of this
  repository; they are kept abstract behind an `Ext` record of oracles, and
  every theorem whose conclusion touches such a path is proved for every
  oracle (or states its dependence on the oracle explicitly).
-/

namespace Hqfbp

/-- Byte strings (`bytes::Bytes`, `Vec<u8>`) as lists of naturals. -/
abbrev ByteL := List Nat

/-- Rust `String` modelled as its byte list. -/
abbrev StrB := List Nat

/-- Literal ASCII string to byte list. -/
def strB (s : String) : StrB := s.data.map Char.toNat

/-- `src/lib.rs` enum `ContentEncoding`: one codec descriptor of an encoding
stack.  Parameter types follow the Rust declaration (`usize`, `u16`, `u32`,
`u64`, `u8`, `i8`), represented as `Nat`/`Int`. -/
inductive ContentEncoding where
  | h
  | identity
  | gzip
  | deflate
  | brotli
  | lzma
  | crc16
  | crc32
  | reedSolomon (n k : Nat)
  | raptorQ (len mtu rep : Nat)
  | raptorQDynamic (mtu rep : Nat)
  | raptorQDynamicPercent (mtu percent : Nat)
  | ltCode (len mtu rep : Nat)
  | ltDynamic (mtu rep : Nat)
  | conv (k : Nat) (rate : StrB)
  | golay (n k : Nat)
  | scrambler (poly : Nat) (seed : Option Nat)
  | asm (w : ByteL)
  | postAsm (w : ByteL)
  | chunk (size : Nat)
  | repeatN (count : Nat)
  | ax25
  | otherString (s : StrB)
  | otherInteger (i : Int)
deriving DecidableEq, Repr

/-- `src/lib.rs` enum `MediaType`. -/
inductive MediaType where
  | format (id : Nat)
  | type (s : StrB)
deriving DecidableEq, Repr

/-- `src/lib.rs` struct `Header`: the HQFBP wire header, all fields optional.
`content_encoding` is the `EncodingList` (a vector of descriptors). -/
structure Header where
  message_id : Option Nat := none
  src_callsign : Option StrB := none
  dst_callsign : Option StrB := none
  content_format : Option Nat := none
  content_type : Option StrB := none
  content_encoding : Option (List ContentEncoding) := none
  repr_digest : Option ByteL := none
  content_digest : Option ByteL := none
  file_size : Option Nat := none
  chunk_id : Option Nat := none
  original_message_id : Option Nat := none
  total_chunks : Option Nat := none
  payload_size : Option Nat := none
deriving DecidableEq, Repr

/-- `coap_content_formats()` from `src/lib.rs`: MIME string to CoAP numeric
content format. -/
def coapContentFormats : List (StrB × Nat) :=
  [ (strB "text/plain;charset=utf-8", 0)
  , (strB "application/link-format", 40)
  , (strB "application/xml", 41)
  , (strB "application/octet-stream", 42)
  , (strB "application/json", 50)
  , (strB "application/cbor", 60)
  , (strB "application/senml+json", 110)
  , (strB "application/senml-exi", 111)
  , (strB "application/senml+cbor", 112)
  , (strB "application/sensml+json", 113)
  , (strB "application/sensml-exi", 114)
  , (strB "application/sensml+cbor", 115)
  , (strB "image/gif", 21)
  , (strB "image/jpeg", 22)
  , (strB "image/png", 23)
  , (strB "image/tiff", 24)
  , (strB "image/svg+xml", 30)
  , (strB "application/cose-key", 101)
  , (strB "application/cose-key-set", 102)
  , (strB "application/or-tecap", 116) ]

/-- `get_coap_id` from `src/lib.rs`. -/
def getCoapId (s : StrB) : Option Nat :=
  (coapContentFormats.find? (fun p => p.1 == s)).map (·.2)

/-- `MediaType::canonicalize` from `src/lib.rs`. -/
def MediaType.canonicalize : MediaType → MediaType
  | .type s =>
      match getCoapId s with
      | some id => .format id
      | none => .type s
  | other => other

/-- `Header::media_type` from `src/lib.rs` (numeric format wins). -/
def Header.mediaType (h : Header) : Option MediaType :=
  match h.content_format with
  | some f => some (.format f)
  | none => h.content_type.map .type

/-- `Header::set_media_type` from `src/lib.rs`. -/
def Header.setMediaType (h : Header) (mt : Option MediaType) : Header :=
  match mt with
  | some m =>
      match m.canonicalize with
      | .format f => { h with content_format := some f, content_type := none }
      | .type s => { h with content_format := none, content_type := some s }
  | none => { h with content_format := none, content_type := none }

/-- `Header::strip_chunking` from `src/lib.rs`. -/
def Header.stripChunking (h : Header) : Header :=
  { h with message_id := none, chunk_id := none,
           original_message_id := none, total_chunks := none }

/-! ### Decimal and hexadecimal rendering (Rust `format!` / `hex::encode`) -/

/-- Decimal digit characters of `n`, most significant first (the bytes of
Rust `format!` on an unsigned integer). -/
def natDecStr (n : Nat) : StrB := (Nat.toDigits 10 n).map Char.toNat

/-- Rust `format!` of an `i8`/`i64` value (optional minus sign). -/
def intDecStr (i : Int) : StrB :=
  if i < 0 then strB "-" ++ natDecStr i.natAbs else natDecStr i.natAbs

/-- Lowercase hexadecimal digits of `n`, most significant first, no leading
zeros (Rust `format!` with the `x` spec; `0` renders as `"0"`). -/
def natHexStr (n : Nat) : StrB := (Nat.toDigits 16 n).map Char.toNat

/-- One byte as two lowercase hex digit characters. -/
def byteHex (b : Nat) : StrB :=
  [(Nat.digitChar (b / 16 % 16)).toNat, (Nat.digitChar (b % 16)).toNat]

/-- `hex::encode` of a byte vector. -/
def hexEncode (w : ByteL) : StrB := w.foldr (fun b acc => byteHex b ++ acc) []

/-- The `Display` implementation for `ContentEncoding` in `src/lib.rs`
(`to_string`), rendered as a byte list. -/
def ContentEncoding.display : ContentEncoding → StrB
  | .h => strB "h"
  | .identity => strB "identity"
  | .gzip => strB "gzip"
  | .deflate => strB "deflate"
  | .brotli => strB "br"
  | .lzma => strB "lzma"
  | .crc16 => strB "crc16"
  | .crc32 => strB "crc32"
  | .reedSolomon n k => strB "rs(" ++ natDecStr n ++ strB "," ++ natDecStr k ++ strB ")"
  | .raptorQ len mtu rep =>
      strB "rq(" ++ natDecStr len ++ strB "," ++ natDecStr mtu ++ strB "," ++
        natDecStr rep ++ strB ")"
  | .raptorQDynamic mtu rep =>
      strB "rq(dlen," ++ natDecStr mtu ++ strB "," ++ natDecStr rep ++ strB ")"
  | .raptorQDynamicPercent mtu percent =>
      strB "rq(dlen," ++ natDecStr mtu ++ strB "," ++ natDecStr percent ++ strB "%)"
  | .ltCode len mtu rep =>
      strB "lt(" ++ natDecStr len ++ strB "," ++ natDecStr mtu ++ strB "," ++
        natDecStr rep ++ strB ")"
  | .ltDynamic mtu rep =>
      strB "lt(dlen," ++ natDecStr mtu ++ strB "," ++ natDecStr rep ++ strB ")"
  | .conv k rate => strB "conv(" ++ natDecStr k ++ strB "," ++ rate ++ strB ")"
  | .golay n k =>
      if n = 24 ∧ k = 12 then strB "golay"
      else strB "golay(" ++ natDecStr n ++ strB "," ++ natDecStr k ++ strB ")"
  | .scrambler p s =>
      match s with
      | some seed => strB "scr(0x" ++ natHexStr p ++ strB ", 0x" ++ natHexStr seed ++ strB ")"
      | none => strB "scr(0x" ++ natHexStr p ++ strB ")"
  | .asm w => strB "asm(0x" ++ hexEncode w ++ strB ")"
  | .postAsm w => strB "post_asm(0x" ++ hexEncode w ++ strB ")"
  | .chunk s => strB "chunk(" ++ natDecStr s ++ strB ")"
  | .repeatN n => strB "repeat(" ++ natDecStr n ++ strB ")"
  | .ax25 => strB "ax.25"
  | .otherString s => s
  | .otherInteger i => intDecStr i

/-- `impl From<ContentEncoding> for i8` from `src/lib.rs` (127 is the
fallback for parameterized descriptors with no short code). -/
def ContentEncoding.toI8 : ContentEncoding → Int
  | .h => -1
  | .identity => 0
  | .gzip => 1
  | .deflate => 2
  | .brotli => 3
  | .lzma => 4
  | .crc16 => 5
  | .crc32 => 6
  | .asm w => if w = [] then 54 else 127
  | .postAsm w => if w = [] then 56 else 127
  | .ax25 => 41
  | .otherInteger i => i
  | _ => 127

/-- `impl TryFrom<i8> for ContentEncoding` from `src/lib.rs` (total). -/
def ContentEncoding.ofI8 (i : Int) : ContentEncoding :=
  if i = -1 then .h
  else if i = 0 then .identity
  else if i = 1 then .gzip
  else if i = 2 then .deflate
  else if i = 3 then .brotli
  else if i = 4 then .lzma
  else if i = 5 then .crc16
  else if i = 6 then .crc32
  else if i = 54 then .asm []
  else if i = 56 then .postAsm []
  else if i = 41 then .ax25
  else .otherInteger i

end Hqfbp

namespace Hqfbp

/-! ### The encoding token grammar (`impl TryFrom<&str> for ContentEncoding`)

The Rust implementation tries a fixed ladder of regular expressions, most of
them unanchored (a match anywhere in the string counts, leftmost match
first).  Each pattern below is implemented as a matcher that must match at
the start of the given suffix, combined with a leftmost scan; `\d+` and
`\s*` are greedy, and none of the source patterns ever needs backtracking
into a greedy group (after every `\d+`/hex run the pattern continues with a
non-digit/non-hex literal).  A capture whose numeric parse overflows the
target Rust integer type makes the whole conversion fail, exactly like the
`?` on `m[1].parse()` in the source. -/

/-- ASCII decimal digit. -/
def isDigitB (c : Nat) : Bool := 48 ≤ c && c ≤ 57

/-- ASCII hexadecimal digit (regex class `[0-9a-fA-F]`). -/
def isHexB (c : Nat) : Bool :=
  isDigitB c || (97 ≤ c && c ≤ 102) || (65 ≤ c && c ≤ 70)

/-- ASCII whitespace (the regex class `\s`; the repository only ever feeds
ASCII here). -/
def isSpaceB (c : Nat) : Bool :=
  c = 32 || c = 9 || c = 10 || c = 13 || c = 12 || c = 11

/-- Greedy split of a leading run satisfying `p`. -/
def takeRun (p : Nat → Bool) : StrB → (StrB × StrB)
  | [] => ([], [])
  | c :: rest =>
      if p c then
        let (r, s) := takeRun p rest
        (c :: r, s)
      else ([], c :: rest)

/-- Expect a literal prefix, returning the remainder. -/
def expectLit (lit s : StrB) : Option StrB :=
  if lit.isPrefixOf s then some (s.drop lit.length) else none

/-- One or more characters satisfying `p` (greedy). -/
def takeRun1 (p : Nat → Bool) (s : StrB) : Option (StrB × StrB) :=
  let (r, rest) := takeRun p s
  if r = [] then none else some (r, rest)

/-- Leftmost match of a start-anchored matcher. -/
def findMatch (m : StrB → Option α) : StrB → Option α
  | [] => m []
  | c :: rest =>
      match m (c :: rest) with
      | some a => some a
      | none => findMatch m rest

/-- Numeric value of a decimal digit string. -/
def decVal (ds : StrB) : Nat := ds.foldl (fun acc d => acc * 10 + (d - 48)) 0

/-- Numeric value of a hexadecimal digit string. -/
def hexDigitVal (c : Nat) : Nat :=
  if isDigitB c then c - 48 else if 97 ≤ c then c - 87 else c - 55

/-- Value of a hex digit run (`u64::from_str_radix(_, 16)`). -/
def hexVal (ds : StrB) : Nat := ds.foldl (fun acc d => acc * 16 + hexDigitVal d) 0

/-- Rust `str::parse` into an unsigned type with `bound` values: overflow is
an error. -/
def parseDec (bound : Nat) (ds : StrB) : Except Unit Nat :=
  if decVal ds < bound then .ok (decVal ds) else .error ()

/-- `u64::from_str_radix(_, 16)`: overflow is an error. -/
def parseHex64 (ds : StrB) : Except Unit Nat :=
  if hexVal ds < 2 ^ 64 then .ok (hexVal ds) else .error ()

/-- `hex::decode`: even number of hex digits, two digits per byte. -/
def hexDecode : StrB → Except Unit ByteL
  | [] => .ok []
  | [_] => .error ()
  | c1 :: c2 :: rest =>
      if isHexB c1 && isHexB c2 then
        (hexDecode rest).map (fun bs => (hexDigitVal c1 * 16 + hexDigitVal c2) :: bs)
      else .error ()

/-- Minimal big-endian bytes of `n` (Rust `to_be_bytes` of a `u64` with the
leading zero bytes dropped; `0` keeps a single zero byte, handled by the
caller). -/
def natBEBytes (n : Nat) : ByteL :=
  if h : n < 256 then [n]
  else natBEBytes (n / 256) ++ [n % 256]
decreasing_by exact Nat.div_lt_self (by omega) (by omega)

/-- The byte vector the source builds for a decimal `asm(...)`/`post_asm(...)`
argument: `to_be_bytes` with leading zeros removed, `vec![0]` for zero. -/
def asmDecimalBytes (n : Nat) : ByteL := if n = 0 then [0] else natBEBytes n

/-- Matcher for `rs\((\d+),\s*(\d+)\)` at the start of the suffix. -/
def matchTwoNums (lit : String) (s : StrB) : Option (StrB × StrB) := do
  let s ← expectLit (strB lit) s
  let (d1, s) ← takeRun1 isDigitB s
  let s ← expectLit (strB ",") s
  let s := (takeRun isSpaceB s).2
  let (d2, s) ← takeRun1 isDigitB s
  let _ ← expectLit (strB ")") s
  some (d1, d2)

/-- Matcher for the three-number patterns `rs`/`rq`/`lt`. -/
def matchThreeNums (lit : String) (s : StrB) : Option (StrB × StrB × StrB) := do
  let s ← expectLit (strB lit) s
  let (d1, s) ← takeRun1 isDigitB s
  let s ← expectLit (strB ",") s
  let s := (takeRun isSpaceB s).2
  let (d2, s) ← takeRun1 isDigitB s
  let s ← expectLit (strB ",") s
  let s := (takeRun isSpaceB s).2
  let (d3, s) ← takeRun1 isDigitB s
  let _ ← expectLit (strB ")") s
  some (d1, d2, d3)

/-- Matcher for `rq\(dlen,\s*(\d+),\s*(\d+)%?\)` (the `%` controlled by
`percent`). -/
def matchDlen (lit : String) (percent : Bool) (s : StrB) : Option (StrB × StrB) := do
  let s ← expectLit (strB lit) s
  let s := (takeRun isSpaceB s).2
  let (d1, s) ← takeRun1 isDigitB s
  let s ← expectLit (strB ",") s
  let s := (takeRun isSpaceB s).2
  let (d2, s) ← takeRun1 isDigitB s
  let _ ← expectLit (if percent then strB "%)" else strB ")") s
  some (d1, d2)

/-- Matcher for `conv\((\d+),\s*(\d+/\d+)\)`; the second capture is returned
as the raw rate string. -/
def matchConv (s : StrB) : Option (StrB × StrB) := do
  let s ← expectLit (strB "conv(") s
  let (d1, s) ← takeRun1 isDigitB s
  let s ← expectLit (strB ",") s
  let s := (takeRun isSpaceB s).2
  let (d2, s) ← takeRun1 isDigitB s
  let s ← expectLit (strB "/") s
  let (d3, s) ← takeRun1 isDigitB s
  let _ ← expectLit (strB ")") s
  some (d1, d2 ++ strB "/" ++ d3)

/-- Matcher for the optional parameter group of
`golay(\((\d+),\s*(\d+)\))?`: the bare word `golay` anywhere matches, the
parenthesized group is taken greedily when it fits. -/
def matchGolay (s : StrB) : Option (Option (StrB × StrB)) := do
  let s ← expectLit (strB "golay") s
  some (do
    let s ← expectLit (strB "(") s
    let (d1, s) ← takeRun1 isDigitB s
    let s ← expectLit (strB ",") s
    let s := (takeRun isSpaceB s).2
    let (d2, s) ← takeRun1 isDigitB s
    let _ ← expectLit (strB ")") s
    some (d1, d2))

/-- One scrambler value: `0x[0-9a-fA-F]+` or `\d+` (the `0x` alternative is
tried first, as in the source pattern). -/
def matchScrVal (s : StrB) : Option ((Bool × StrB) × StrB) :=
  match expectLit (strB "0x") s with
  | some s1 =>
      match takeRun1 isHexB s1 with
      | some (d, rest) => some ((true, d), rest)
      | none => (takeRun1 isDigitB s).map (fun (d, rest) => ((false, d), rest))
  | none => (takeRun1 isDigitB s).map (fun (d, rest) => ((false, d), rest))

/-- Matcher for `scr\((0x…|\d+)(,\s*(0x…|\d+))?\)`. -/
def matchScr (s : StrB) : Option ((Bool × StrB) × Option (Bool × StrB)) := do
  let s ← expectLit (strB "scr(") s
  let (v1, s) ← matchScrVal s
  match expectLit (strB ",") s with
  | some s1 =>
      let s1 := (takeRun isSpaceB s1).2
      match matchScrVal s1 with
      | some (v2, s2) => do
          let _ ← expectLit (strB ")") s2
          some (v1, some v2)
      | none => do
          -- the optional group fails as a whole; `)` must follow directly
          let _ ← expectLit (strB ")") s
          some (v1, none)
  | none => do
      let _ ← expectLit (strB ")") s
      some (v1, none)

/-- Matcher for a single-number pattern `chunk\((\d+)\)` / `repeat\((\d+)\)`. -/
def matchOneNum (lit : String) (s : StrB) : Option StrB := do
  let s ← expectLit (strB lit) s
  let (d1, s) ← takeRun1 isDigitB s
  let _ ← expectLit (strB ")") s
  some d1

/-- Matcher for the anchored `^asm\((0x[0-9a-fA-F]+|\d+)\)$` (and its
`post_asm` twin): the whole string must match. -/
def matchAsmAnchored (lit : String) (s : StrB) : Option (Bool × StrB) := do
  let s ← expectLit (strB lit) s
  let (v, s) ← matchScrVal s
  let s ← expectLit (strB ")") s
  if s = [] then some v else none

/-- The scrambler value parse (`parse_val` in the source): hex as `u64` or
decimal as `u64`. -/
def scrValParse : Bool × StrB → Except Unit Nat
  | (true, d) => parseHex64 d
  | (false, d) => parseDec (2 ^ 64) d

/-- The literal table at the head of `TryFrom<&str>` (well-known names and
their stringified short codes). -/
def tryShortName (s : StrB) : Option ContentEncoding :=
  if s = strB "h" ∨ s = strB "-1" then some .h
  else if s = strB "identity" ∨ s = strB "0" then some .identity
  else if s = strB "gzip" ∨ s = strB "1" then some .gzip
  else if s = strB "deflate" ∨ s = strB "2" then some .deflate
  else if s = strB "br" ∨ s = strB "3" then some .brotli
  else if s = strB "lzma" ∨ s = strB "4" then some .lzma
  else if s = strB "crc16" ∨ s = strB "5" then some .crc16
  else if s = strB "crc32" ∨ s = strB "6" then some .crc32
  else if s = strB "ax.25" ∨ s = strB "41" then some .ax25
  else none

/-- `impl TryFrom<&str> for ContentEncoding` (`src/lib.rs`): the regex
ladder, in source order, falling back to `OtherString`. -/
def ContentEncoding.parse (s : StrB) : Except Unit ContentEncoding :=
  match tryShortName s with
  | some e => .ok e
  | none =>
  match findMatch (matchTwoNums "rs(") s with
  | some (d1, d2) => do
      .ok (.reedSolomon (← parseDec (2 ^ 64) d1) (← parseDec (2 ^ 64) d2))
  | none =>
  match findMatch (matchThreeNums "rq(") s with
  | some (d1, d2, d3) => do
      .ok (.raptorQ (← parseDec (2 ^ 64) d1) (← parseDec (2 ^ 16) d2)
            (← parseDec (2 ^ 32) d3))
  | none =>
  match findMatch (matchDlen "rq(dlen," false) s with
  | some (d1, d2) => do
      .ok (.raptorQDynamic (← parseDec (2 ^ 16) d1) (← parseDec (2 ^ 32) d2))
  | none =>
  match findMatch (matchDlen "rq(dlen," true) s with
  | some (d1, d2) => do
      .ok (.raptorQDynamicPercent (← parseDec (2 ^ 16) d1) (← parseDec (2 ^ 8) d2))
  | none =>
  match findMatch (matchThreeNums "lt(") s with
  | some (d1, d2, d3) => do
      .ok (.ltCode (← parseDec (2 ^ 64) d1) (← parseDec (2 ^ 16) d2)
            (← parseDec (2 ^ 32) d3))
  | none =>
  match findMatch (matchDlen "lt(dlen," false) s with
  | some (d1, d2) => do
      .ok (.ltDynamic (← parseDec (2 ^ 16) d1) (← parseDec (2 ^ 32) d2))
  | none =>
  match findMatch matchConv s with
  | some (d1, rate) => do
      .ok (.conv (← parseDec (2 ^ 64) d1) rate)
  | none =>
  match findMatch matchGolay s with
  | some (some (d1, d2)) => do
      .ok (.golay (← parseDec (2 ^ 64) d1) (← parseDec (2 ^ 64) d2))
  | some none => .ok (.golay 24 12)
  | none =>
  match findMatch matchScr s with
  | some (v1, v2) => do
      let p ← scrValParse v1
      match v2 with
      | some v => do .ok (.scrambler p (some (← scrValParse v)))
      | none => .ok (.scrambler p none)
  | none =>
  match findMatch (matchOneNum "chunk(") s with
  | some d1 => do .ok (.chunk (← parseDec (2 ^ 64) d1))
  | none =>
  match findMatch (matchOneNum "repeat(") s with
  | some d1 => do .ok (.repeatN (← parseDec (2 ^ 64) d1))
  | none =>
  match matchAsmAnchored "asm(" s with
  | some (true, d) => (hexDecode d).map .asm
  | some (false, d) => do .ok (.asm (asmDecimalBytes (← parseDec (2 ^ 64) d)))
  | none =>
  match matchAsmAnchored "post_asm(" s with
  | some (true, d) => (hexDecode d).map .postAsm
  | some (false, d) => do .ok (.postAsm (asmDecimalBytes (← parseDec (2 ^ 64) d)))
  | none => .ok (.otherString s)

end Hqfbp

namespace Hqfbp

/-! ### CBOR writing (the minicbor encoder, minimal-width integers) -/

/-- A CBOR head for major type `major` and argument `n`, using the minimal
width (what minicbor writes for `u8`/`u16`/`u32`/`u64`/lengths/map and
array heads alike). -/
def writeHead (major n : Nat) : List Nat :=
  if n < 24 then [major * 32 + n]
  else if n < 2 ^ 8 then [major * 32 + 24, n]
  else if n < 2 ^ 16 then [major * 32 + 25, n / 2 ^ 8, n % 2 ^ 8]
  else if n < 2 ^ 32 then
    [major * 32 + 26, n / 2 ^ 24, n / 2 ^ 16 % 2 ^ 8, n / 2 ^ 8 % 2 ^ 8, n % 2 ^ 8]
  else
    [major * 32 + 27, n / 2 ^ 56, n / 2 ^ 48 % 2 ^ 8, n / 2 ^ 40 % 2 ^ 8,
      n / 2 ^ 32 % 2 ^ 8, n / 2 ^ 24 % 2 ^ 8, n / 2 ^ 16 % 2 ^ 8,
      n / 2 ^ 8 % 2 ^ 8, n % 2 ^ 8]

/-- minicbor `Encoder::u8/u16/u32/u64` (all minimal-width unsigned). -/
def writeUInt (n : Nat) : List Nat := writeHead 0 n

/-- minicbor `Encoder::i8` on a value in `[-128, 127]`: major 0 for
non-negative, major 1 with argument `-1 - i` otherwise. -/
def writeI8 (i : Int) : List Nat :=
  if 0 ≤ i then writeHead 0 i.toNat else writeHead 1 (-1 - i).toNat

/-- minicbor `Encoder::str`: definite-length text string. -/
def writeStr (s : StrB) : List Nat := writeHead 3 s.length ++ s

/-- minicbor `Encoder::bytes`: definite-length byte string. -/
def writeBytes (b : ByteL) : List Nat := writeHead 2 b.length ++ b

/-- Whether a descriptor is a `Chunk(_)` (filtered out by the
`EncodingList` encoder). -/
def ContentEncoding.isChunk : ContentEncoding → Bool
  | .chunk _ => true
  | _ => false

/-- One item of an encoded `EncodingList`: the short code as `i8` when one
exists, else the `Display` string (`impl Encode for EncodingList`,
`src/lib.rs`; the single-`OtherString` special case writes the raw string,
which coincides with its `Display`). -/
def elItemBytes (e : ContentEncoding) : List Nat :=
  if e.toI8 = 127 then writeStr e.display else writeI8 e.toI8

/-- `impl Encode for EncodingList` (`src/lib.rs`): `Chunk` entries are
filtered out; a single remaining entry is written bare, an empty remainder
becomes the `identity` short code `0`, otherwise a definite array. -/
def encodeEL (l : List ContentEncoding) : List Nat :=
  let filtered := l.filter (fun e => !e.isChunk)
  match filtered with
  | [] => writeI8 0
  | [e] => elItemBytes e
  | _ =>
      writeHead 4 filtered.length ++ filtered.foldr (fun e acc => elItemBytes e ++ acc) []

/-- Key/value entry of an encoded header map for an optional field: absent
fields are skipped, present ones write the `u8` key then the value
(`impl Encode for Header`, `src/lib.rs`). -/
def optEntry (key : Nat) (w : α → List Nat) : Option α → List Nat
  | none => []
  | some v => writeUInt key ++ w v

/-- Count contribution of an optional field to the map length. -/
def optCount : Option α → Nat
  | none => 0
  | some _ => 1

/-- Number of present fields (the `fields` vector of the source encoder). -/
def headerFieldCount (h : Header) : Nat :=
  optCount h.message_id + (optCount h.src_callsign + (optCount h.dst_callsign +
  (optCount h.content_format + (optCount h.content_type + (optCount h.content_encoding +
  (optCount h.repr_digest + (optCount h.content_digest + (optCount h.file_size +
  (optCount h.chunk_id + (optCount h.original_message_id + (optCount h.total_chunks +
  optCount h.payload_size)))))))))))

/-- `impl Encode for Header` (`src/lib.rs`): a definite CBOR map whose
length is the number of present fields, entries in ascending key order. -/
def encodeHeader (h : Header) : List Nat :=
  writeHead 5 (headerFieldCount h) ++
  optEntry 0 writeUInt h.message_id ++
  optEntry 1 writeStr h.src_callsign ++
  optEntry 2 writeStr h.dst_callsign ++
  optEntry 3 writeUInt h.content_format ++
  optEntry 4 writeStr h.content_type ++
  optEntry 5 encodeEL h.content_encoding ++
  optEntry 6 writeBytes h.repr_digest ++
  optEntry 7 writeBytes h.content_digest ++
  optEntry 8 writeUInt h.file_size ++
  optEntry 9 writeUInt h.chunk_id ++
  optEntry 10 writeUInt h.original_message_id ++
  optEntry 11 writeUInt h.total_chunks ++
  optEntry 12 writeUInt h.payload_size

/-! ### CBOR reading (the minicbor decoder, as used by `Header::decode`) -/

/-- Read one CBOR head: major type and argument (`none` for
indefinite-length, info 31); reserved infos 28–30 and truncated input are
errors. -/
def readHead : List Nat → Except Unit (Nat × Option Nat × List Nat)
  | [] => .error ()
  | b :: rest =>
      let major := b / 32
      let info := b % 32
      if info < 24 then .ok (major, some info, rest)
      else if info = 24 then
        match rest with
        | v :: r => .ok (major, some v, r)
        | _ => .error ()
      else if info = 25 then
        match rest with
        | v1 :: v2 :: r => .ok (major, some (v1 * 2 ^ 8 + v2), r)
        | _ => .error ()
      else if info = 26 then
        match rest with
        | v1 :: v2 :: v3 :: v4 :: r =>
            .ok (major, some (((v1 * 2 ^ 8 + v2) * 2 ^ 8 + v3) * 2 ^ 8 + v4), r)
        | _ => .error ()
      else if info = 27 then
        match rest with
        | v1 :: v2 :: v3 :: v4 :: v5 :: v6 :: v7 :: v8 :: r =>
            .ok (major, some (((((((v1 * 2 ^ 8 + v2) * 2 ^ 8 + v3) * 2 ^ 8 + v4) *
              2 ^ 8 + v5) * 2 ^ 8 + v6) * 2 ^ 8 + v7) * 2 ^ 8 + v8), r)
        | _ => .error ()
      else if info = 31 then .ok (major, none, rest)
      else .error ()

/-- minicbor unsigned decoder (`d.u16()`, `d.u32()`, `d.u64()`): major 0,
definite, value below the type bound. -/
def readUIntBounded (bound : Nat) (data : List Nat) : Except Unit (Nat × List Nat) := do
  let (major, arg, rest) ← readHead data
  match arg with
  | some v => if major = 0 ∧ v < bound then .ok (v, rest) else .error ()
  | none => .error ()

/-- minicbor `d.i8()`: major 0 or 1, argument at most 127. -/
def readI8 (data : List Nat) : Except Unit (Int × List Nat) := do
  let (major, arg, rest) ← readHead data
  match arg with
  | some v =>
      if major = 0 ∧ v ≤ 127 then .ok ((v : Int), rest)
      else if major = 1 ∧ v ≤ 127 then .ok (-1 - (v : Int), rest)
      else .error ()
  | none => .error ()

/-- minicbor `d.str()`: definite text string (the model accepts any bytes
where Rust additionally checks UTF-8 validity; every string decoded by the
round-trip theorems was produced by the encoder from a Rust string). -/
def readStr (data : List Nat) : Except Unit (StrB × List Nat) := do
  let (major, arg, rest) ← readHead data
  match arg with
  | some n =>
      if major = 3 ∧ n ≤ rest.length then .ok (rest.take n, rest.drop n)
      else .error ()
  | none => .error ()

/-- minicbor `d.bytes()`: definite byte string. -/
def readBytes (data : List Nat) : Except Unit (ByteL × List Nat) := do
  let (major, arg, rest) ← readHead data
  match arg with
  | some n =>
      if major = 2 ∧ n ≤ rest.length then .ok (rest.take n, rest.drop n)
      else .error ()
  | none => .error ()

/-- Items of an `EncodingList` array (`impl Decode for EncodingList`, array
branch): integer items go through `i8` and the short-code table, everything
else through `d.str()` and the token grammar. -/
def readELItems : Nat → List Nat → Except Unit (List ContentEncoding × List Nat)
  | 0, data => .ok ([], data)
  | n + 1, data =>
      match data with
      | [] => .error ()
      | b :: _ =>
          if b / 32 ≤ 1 then do
            let (i, rest) ← readI8 data
            let (l, rest2) ← readELItems n rest
            .ok (ContentEncoding.ofI8 i :: l, rest2)
          else do
            let (s, rest) ← readStr data
            let e ← ContentEncoding.parse s
            let (l, rest2) ← readELItems n rest
            .ok (e :: l, rest2)

/-- `impl Decode for EncodingList` (`src/lib.rs`): a bare integer, a bare
string, or an array of integers/strings; an indefinite-length array is read
as zero items (`d.array()?.unwrap_or(0)`). -/
def readEL (data : List Nat) : Except Unit (List ContentEncoding × List Nat) :=
  match data with
  | [] => .error ()
  | b :: _ =>
      if b / 32 ≤ 1 then do
        let (i, rest) ← readI8 data
        .ok ([ContentEncoding.ofI8 i], rest)
      else if b / 32 = 3 then do
        let (s, rest) ← readStr data
        let e ← ContentEncoding.parse s
        .ok ([e], rest)
      else if b / 32 = 4 then do
        let (_, arg, rest) ← readHead data
        let len := arg.getD 0
        readELItems len rest
      else .error ()

end Hqfbp

namespace Hqfbp

mutual

/-- minicbor `Decoder::skip` on one data item (used by `Header::decode` for
unknown map keys), fuelled by the remaining byte count. -/
def skipItem : Nat → List Nat → Except Unit (List Nat)
  | 0, _ => .error ()
  | fuel + 1, data => do
      let (major, arg, rest) ← readHead data
      match arg with
      | some n =>
          if major ≤ 1 ∨ major = 7 then .ok rest
          else if major = 2 ∨ major = 3 then
            if n ≤ rest.length then .ok (rest.drop n) else .error ()
          else if major = 4 then skipItems fuel n rest
          else if major = 5 then skipItems fuel (2 * n) rest
          else skipItem fuel rest
      | none => skipToBreak fuel rest

/-- Skip `n` consecutive data items. -/
def skipItems : Nat → Nat → List Nat → Except Unit (List Nat)
  | 0, _, _ => .error ()
  | _ + 1, 0, data => .ok data
  | fuel + 1, n + 1, data => do
      let rest ← skipItem fuel data
      skipItems fuel n rest

/-- Skip items of an indefinite-length container up to its break byte. -/
def skipToBreak : Nat → List Nat → Except Unit (List Nat)
  | 0, _ => .error ()
  | fuel + 1, data =>
      match data with
      | [] => .error ()
      | 255 :: rest => .ok rest
      | _ => do
          let rest ← skipItem fuel data
          skipToBreak fuel rest

end

/-- One key/value entry of `impl Decode for Header` (`src/lib.rs`): the key
is read as `u32`, the value reader depends on the key, unknown keys are
skipped. -/
def decodeEntry (data : List Nat) (h : Header) : Except Unit (Header × List Nat) := do
  let (key, r) ← readUIntBounded (2 ^ 32) data
  match key with
  | 0 => do
      let (v, r2) ← readUIntBounded (2 ^ 32) r
      .ok ({ h with message_id := some v }, r2)
  | 1 => do
      let (s, r2) ← readStr r
      .ok ({ h with src_callsign := some s }, r2)
  | 2 => do
      let (s, r2) ← readStr r
      .ok ({ h with dst_callsign := some s }, r2)
  | 3 => do
      let (v, r2) ← readUIntBounded (2 ^ 16) r
      .ok ({ h with content_format := some v }, r2)
  | 4 => do
      let (s, r2) ← readStr r
      .ok ({ h with content_type := some s }, r2)
  | 5 => do
      let (l, r2) ← readEL r
      .ok ({ h with content_encoding := some l }, r2)
  | 6 => do
      let (b, r2) ← readBytes r
      .ok ({ h with repr_digest := some b }, r2)
  | 7 => do
      let (b, r2) ← readBytes r
      .ok ({ h with content_digest := some b }, r2)
  | 8 => do
      let (v, r2) ← readUIntBounded (2 ^ 64) r
      .ok ({ h with file_size := some v }, r2)
  | 9 => do
      let (v, r2) ← readUIntBounded (2 ^ 32) r
      .ok ({ h with chunk_id := some v }, r2)
  | 10 => do
      let (v, r2) ← readUIntBounded (2 ^ 32) r
      .ok ({ h with original_message_id := some v }, r2)
  | 11 => do
      let (v, r2) ← readUIntBounded (2 ^ 32) r
      .ok ({ h with total_chunks := some v }, r2)
  | 12 => do
      let (v, r2) ← readUIntBounded (2 ^ 64) r
      .ok ({ h with payload_size := some v }, r2)
  | _ => do
      let r2 ← skipItem (r.length + 1) r
      .ok (h, r2)

/-- The definite-map loop of `Header::decode`. -/
def decodeEntries : Nat → List Nat → Header → Except Unit (Header × List Nat)
  | 0, data, h => .ok (h, data)
  | n + 1, data, h => do
      let (h2, rest) ← decodeEntry data h
      decodeEntries n rest h2

/-- The indefinite-map loop of `Header::decode` (`while datatype != Break`;
the closing `d.skip()` consumes the break byte). -/
def decodeEntriesIndef : Nat → List Nat → Header → Except Unit (Header × List Nat)
  | 0, _, _ => .error ()
  | fuel + 1, data, h =>
      match data with
      | [] => .error ()
      | 255 :: rest => .ok (h, rest)
      | _ => do
          let (h2, rest) ← decodeEntry data h
          decodeEntriesIndef fuel rest h2

/-- `impl Decode for Header` (`src/lib.rs`), followed by the payload
position slicing done by `unpack`: the remaining bytes are the payload. -/
def decodeHeader (data : List Nat) : Except Unit (Header × List Nat) := do
  let (major, arg, rest) ← readHead data
  if major = 5 then
    match arg with
    | some n => decodeEntries n rest {}
    | none => decodeEntriesIndef (rest.length + 1) rest {}
  else .error ()

/-- `unpack` from `src/lib.rs`: decode the leading CBOR header; absent
`Message-Id` is only tolerated when `content_type` is the literal string
`application/vnd.hqfbp+cbor` (note: the numeric `Content-Format` is NOT
consulted here). -/
def unpack (data : ByteL) : Except Unit (Header × ByteL) := do
  let (header, payload) ← decodeHeader data
  if header.message_id = none ∧
      header.content_type ≠ some (strB "application/vnd.hqfbp+cbor") then
    .error ()
  else
    .ok (header, payload)

/-- The header canonicalization `pack` performs before encoding
(`src/lib.rs`): re-set the media type through `canonicalize` (numeric
format wins and drops the string form; a mapped `Content-Type` becomes
`Content-Format`), drop the default `Content-Format` 0, and stamp
`Payload-Size` with the payload length. -/
def packCanonHeader (h : Header) (payloadLen : Nat) : Header :=
  let h1 := h.setMediaType h.mediaType
  let h2 := if h1.content_format = some 0 then { h1 with content_format := none } else h1
  { h2 with payload_size := some payloadLen }

/-- `pack` from `src/lib.rs`: canonicalize, require `Message-Id`, emit the
CBOR header followed by the raw payload.  (The source checks `Message-Id`
after the media-type steps, which do not touch it.) -/
def pack (header : Header) (payload : ByteL) : Except Unit ByteL :=
  if header.message_id = none then .error ()
  else .ok (encodeHeader (packCanonHeader header payload.length) ++ payload)

/-- Soft merge of one field (`merge_field!` with `consistent = false`):
keep the existing value, else adopt the other's. -/
def mergeSoft (selfF otherF : Option α) : Option α :=
  match otherF with
  | some v => match selfF with
    | some e => some e
    | none => some v
  | none => selfF

/-- Strict merge of one field (`merge_field!` with `consistent = true`):
`none` signals the `ProtocolError::InconsistentField` early return. -/
def mergeStrict [DecidableEq α] (selfF otherF : Option α) : Option (Option α) :=
  match otherF with
  | some v => match selfF with
    | some e => if e ≠ v then none else some (some e)
    | none => some (some v)
  | none => some selfF

/-- `Header::merge` from `src/lib.rs`.  Returns the (possibly partially)
merged header and `true` on success / `false` on the inconsistent-field
protocol error; mutations performed before the failing field are kept, as
in the Rust `&mut self` receiver whose caller may ignore the `Err`. -/
def Header.merge (self other : Header) : Header × Bool :=
  match mergeStrict self.src_callsign other.src_callsign with
  | none => (self, false)
  | some src =>
    let h1 := { self with
      src_callsign := src,
      dst_callsign := mergeSoft self.dst_callsign other.dst_callsign,
      content_format := mergeSoft self.content_format other.content_format,
      content_type := mergeSoft self.content_type other.content_type,
      content_encoding := mergeSoft self.content_encoding other.content_encoding }
    match mergeStrict h1.repr_digest other.repr_digest with
    | none => (h1, false)
    | some repr =>
      let h2 := { h1 with
        repr_digest := repr,
        content_digest := mergeSoft h1.content_digest other.content_digest }
      match mergeStrict h2.file_size other.file_size with
      | none => (h2, false)
      | some fs =>
        (({ h2 with
            file_size := fs,
            payload_size := mergeSoft h2.payload_size other.payload_size }), true)

/-- Value-level effect of sending one `EncodingList` item through its wire
form and back: the `i8` short-code table when one applies, else re-parsing
its `Display` rendering with the token grammar. -/
def normalizeEntry (e : ContentEncoding) : Except Unit ContentEncoding :=
  if e.toI8 = 127 then ContentEncoding.parse e.display else .ok (ContentEncoding.ofI8 e.toI8)

/-- Entry-wise wire normalization of a descriptor list. -/
def normalizeList : List ContentEncoding → Except Unit (List ContentEncoding)
  | [] => .ok []
  | e :: tl => do
      let e2 ← normalizeEntry e
      let l ← normalizeList tl
      .ok (e2 :: l)

/-- Value-level effect of the `EncodingList` wire round trip: `Chunk`
entries are stripped, an emptied list reads back as `[identity]`, remaining
entries are re-read through the short-code table or the token grammar. -/
def normalizeEL (l : List ContentEncoding) : Except Unit (List ContentEncoding) :=
  match l.filter (fun e => !e.isChunk) with
  | [] => .ok [.identity]
  | fl => normalizeList fl

/-- Lift of `normalizeEL` to the optional header field. -/
def normalizeELOpt : Option (List ContentEncoding) → Except Unit (Option (List ContentEncoding))
  | none => .ok none
  | some l => (normalizeEL l).map some

/-- The complete canonicalization that `unpack ∘ pack` applies to a header
(the code's behaviour): `pack`'s canonicalization plus the
`Content-Encoding` wire normalization. -/
def wireCanonHeader (h : Header) (payloadLen : Nat) : Except Unit Header := do
  let h1 := packCanonHeader h payloadLen
  let ce ← normalizeELOpt h1.content_encoding
  .ok { h1 with content_encoding := ce }

/-- The canonicalization THE CLAIM C1 describes, built from the claim's
words alone: Content-Type converted to Content-Format where a CoAP mapping
exists, default Content-Format 0 dropped, Payload-Size set to the payload
length — and nothing else. -/
def claimCanonHeader (h : Header) (payloadLen : Nat) : Header :=
  let h1 :=
    match h.content_type with
    | some s =>
        match getCoapId s with
        | some id => { h with content_format := some id, content_type := none }
        | none => h
    | none => h
  let h2 := if h1.content_format = some 0 then { h1 with content_format := none } else h1
  { h2 with payload_size := some payloadLen }

end Hqfbp

namespace Hqfbp

/-! ### Round-trip lemmas for the CBOR layer -/

theorem readHead_writeHead (major n : Nat) (rest : List Nat) (hn : n < 2 ^ 64) :
    readHead (writeHead major n ++ rest) = .ok (major, some n, rest) := by
  have p8 : (2 : Nat) ^ 8 = 256 := rfl
  have p16 : (2 : Nat) ^ 16 = 65536 := rfl
  have p32 : (2 : Nat) ^ 32 = 4294967296 := rfl
  have p64 : (2 : Nat) ^ 64 = 18446744073709551616 := rfl
  unfold writeHead
  by_cases h1 : n < 24
  · simp only [if_pos h1, List.cons_append, List.nil_append, readHead]
    have e1 : (major * 32 + n) / 32 = major := by omega
    have e2 : (major * 32 + n) % 32 = n := by omega
    rw [e1, e2, if_pos h1]
  · by_cases h2 : n < 2 ^ 8
    · simp only [if_neg h1, if_pos h2, List.cons_append, List.nil_append, readHead]
      have e1 : (major * 32 + 24) / 32 = major := by omega
      have e2 : (major * 32 + 24) % 32 = 24 := by omega
      rw [e1, e2]
      norm_num
    · by_cases h3 : n < 2 ^ 16
      · simp only [if_neg h1, if_neg h2, if_pos h3, List.cons_append, List.nil_append, readHead]
        have e1 : (major * 32 + 25) / 32 = major := by omega
        have e2 : (major * 32 + 25) % 32 = 25 := by omega
        rw [e1, e2]
        norm_num
        omega
      · by_cases h4 : n < 2 ^ 32
        · simp only [if_neg h1, if_neg h2, if_neg h3, if_pos h4, List.cons_append,
            List.nil_append, readHead]
          have e1 : (major * 32 + 26) / 32 = major := by omega
          have e2 : (major * 32 + 26) % 32 = 26 := by omega
          rw [e1, e2]
          norm_num
          omega
        · simp only [if_neg h1, if_neg h2, if_neg h3, if_neg h4, List.cons_append,
            List.nil_append, readHead]
          have e1 : (major * 32 + 27) / 32 = major := by omega
          have e2 : (major * 32 + 27) % 32 = 27 := by omega
          rw [e1, e2]
          norm_num
          omega

end Hqfbp

namespace Hqfbp

theorem readUIntBounded_writeUInt (bound n : Nat) (rest : List Nat)
    (hb : n < bound) (hn : n < 2 ^ 64) :
    readUIntBounded bound (writeUInt n ++ rest) = .ok (n, rest) := by
  unfold readUIntBounded writeUInt
  rw [readHead_writeHead 0 n rest hn]
  simp [hb, Bind.bind, Except.bind]

theorem readI8_writeI8 (i : Int) (rest : List Nat) (h1 : -128 ≤ i) (h2 : i ≤ 127) :
    readI8 (writeI8 i ++ rest) = .ok (i, rest) := by
  unfold readI8 writeI8
  by_cases hpos : 0 ≤ i
  · rw [if_pos hpos]
    rw [readHead_writeHead 0 i.toNat rest (by omega)]
    have hle : i.toNat ≤ 127 := by omega
    simp [Bind.bind, Except.bind, hle]
    omega
  · rw [if_neg hpos]
    rw [readHead_writeHead 1 (-1 - i).toNat rest (by omega)]
    have hle : (-1 - i).toNat ≤ 127 := by omega
    simp [Bind.bind, Except.bind, hle]
    omega

theorem readStr_writeStr (s : StrB) (rest : List Nat) (hs : s.length < 2 ^ 64) :
    readStr (writeStr s ++ rest) = .ok (s, rest) := by
  unfold readStr writeStr
  rw [List.append_assoc, readHead_writeHead 3 s.length (s ++ rest) hs]
  simp [Bind.bind, Except.bind, List.take_left, List.drop_left]

theorem readBytes_writeBytes (s : ByteL) (rest : List Nat) (hs : s.length < 2 ^ 64) :
    readBytes (writeBytes s ++ rest) = .ok (s, rest) := by
  unfold readBytes writeBytes
  rw [List.append_assoc, readHead_writeHead 2 s.length (s ++ rest) hs]
  simp [Bind.bind, Except.bind, List.take_left, List.drop_left]

/-- Shape of an encoded head: a first byte whose high three bits recover the
major type. -/
theorem writeHead_shape (major n : Nat) :
    ∃ b t, writeHead major n = b :: t ∧ b / 32 = major := by
  unfold writeHead
  by_cases h1 : n < 24
  · exact ⟨major * 32 + n, _, by rw [if_pos h1], by omega⟩
  · by_cases h2 : n < 2 ^ 8
    · exact ⟨major * 32 + 24, _, by rw [if_neg h1, if_pos h2], by omega⟩
    · by_cases h3 : n < 2 ^ 16
      · exact ⟨major * 32 + 25, _, by rw [if_neg h1, if_neg h2, if_pos h3], by omega⟩
      · by_cases h4 : n < 2 ^ 32
        · exact ⟨major * 32 + 26, _, by rw [if_neg h1, if_neg h2, if_neg h3, if_pos h4], by omega⟩
        · exact ⟨major * 32 + 27, _, by rw [if_neg h1, if_neg h2, if_neg h3, if_neg h4], by omega⟩

end Hqfbp

namespace Hqfbp

/-- Well-formedness of one `EncodingList` entry for the wire round trip:
its short code is a genuine `i8` (automatic for everything except an
`OtherInteger` escape value out of range, which the Rust type rules out)
and its rendering fits a CBOR length (always true for real headers). -/
def elEntryWF (e : ContentEncoding) : Prop :=
  -128 ≤ e.toI8 ∧ e.toI8 ≤ 127 ∧ e.display.length < 2 ^ 64

instance (e : ContentEncoding) : Decidable (elEntryWF e) := by
  unfold elEntryWF; infer_instance

theorem readELItems_int (n : Nat) (i : Int) (rd : List Nat)
    (h1 : -128 ≤ i) (h2 : i ≤ 127) :
    readELItems (n + 1) (writeI8 i ++ rd) =
      (readELItems n rd).bind (fun p => .ok (ContentEncoding.ofI8 i :: p.1, p.2)) := by
  obtain ⟨b, t, heq, hdiv⟩ : ∃ b t, writeI8 i ++ rd = b :: t ∧ b / 32 ≤ 1 := by
    unfold writeI8
    by_cases hpos : 0 ≤ i
    · rw [if_pos hpos]
      obtain ⟨b, t, heq, hd⟩ := writeHead_shape 0 i.toNat
      exact ⟨b, t ++ rd, by rw [heq]; rfl, by omega⟩
    · rw [if_neg hpos]
      obtain ⟨b, t, heq, hd⟩ := writeHead_shape 1 (-1 - i).toNat
      exact ⟨b, t ++ rd, by rw [heq]; rfl, by omega⟩
  rw [heq]
  simp only [readELItems, if_pos hdiv]
  rw [← heq, readI8_writeI8 i rd h1 h2]
  rcases hr : readELItems n rd with err | p <;> simp [Bind.bind, Except.bind, hr]

theorem readELItems_str (n : Nat) (s : StrB) (rd : List Nat) (hs : s.length < 2 ^ 64) :
    readELItems (n + 1) (writeStr s ++ rd) =
      (ContentEncoding.parse s).bind (fun e =>
        (readELItems n rd).bind (fun p => .ok (e :: p.1, p.2))) := by
  obtain ⟨b, t, heq, hdiv⟩ : ∃ b t, writeStr s ++ rd = b :: t ∧ b / 32 = 3 := by
    unfold writeStr
    obtain ⟨b, t, heq, hd⟩ := writeHead_shape 3 s.length
    exact ⟨b, t ++ (s ++ rd), by rw [List.append_assoc, heq]; rfl, hd⟩
  rw [heq]
  have hnotint : ¬ b / 32 ≤ 1 := by omega
  simp only [readELItems, if_neg hnotint]
  rw [← heq, readStr_writeStr s rd hs]
  rcases hp : ContentEncoding.parse s with err | e <;>
    rcases hr : readELItems n rd with err2 | p <;>
      simp [Bind.bind, Except.bind, hp, hr]

theorem readELItems_item (n : Nat) (e : ContentEncoding) (rd : List Nat)
    (hwf : elEntryWF e) :
    readELItems (n + 1) (elItemBytes e ++ rd) =
      (normalizeEntry e).bind (fun e2 =>
        (readELItems n rd).bind (fun p => .ok (e2 :: p.1, p.2))) := by
  unfold elItemBytes normalizeEntry
  by_cases h127 : e.toI8 = 127
  · rw [if_pos h127, if_pos h127, readELItems_str n _ rd hwf.2.2]
  · rw [if_neg h127, if_neg h127, readELItems_int n _ rd hwf.1 hwf.2.1]
    rcases hr : readELItems n rd with err | p <;> simp [Bind.bind, Except.bind, hr]

theorem readELItems_list (le l2 : List ContentEncoding) (rest : List Nat)
    (hwf : ∀ e ∈ le, elEntryWF e) (hn : normalizeList le = .ok l2) :
    readELItems le.length (le.foldr (fun e acc => elItemBytes e ++ acc) [] ++ rest) =
      .ok (l2, rest) := by
  induction le generalizing l2 with
  | nil =>
      simp only [normalizeList] at hn
      cases hn
      simp [readELItems]
  | cons e tl ih =>
      rw [List.foldr_cons, List.append_assoc, List.length_cons,
        readELItems_item _ e _ (hwf e (by simp))]
      simp only [normalizeList] at hn
      rcases hne : normalizeEntry e with err | e2 <;> rw [hne] at hn
      · simp [Bind.bind, Except.bind] at hn
      · rcases hntl : normalizeList tl with err | ltl <;> rw [hntl] at hn
        · simp [Bind.bind, Except.bind] at hn
        · simp only [Bind.bind, Except.bind] at hn
          cases hn
          simp only [Except.bind]
          rw [ih ltl (fun e he => hwf e (by simp [he])) hntl]

end Hqfbp

namespace Hqfbp

/-- Well-formedness of an `EncodingList` for the wire round trip. -/
def elWF (l : List ContentEncoding) : Prop :=
  (∀ e ∈ l.filter (fun e => !e.isChunk), elEntryWF e) ∧
  (l.filter (fun e => !e.isChunk)).length < 2 ^ 64

instance (l : List ContentEncoding) : Decidable (elWF l) := by
  unfold elWF; infer_instance

theorem readEL_item (e e2 : ContentEncoding) (rest : List Nat)
    (hwf : elEntryWF e) (hn : normalizeEntry e = .ok e2) :
    readEL (elItemBytes e ++ rest) = .ok ([e2], rest) := by
  unfold elItemBytes
  by_cases h127 : e.toI8 = 127
  · rw [if_pos h127]
    obtain ⟨b, t, heq, hdiv⟩ : ∃ b t, writeStr e.display ++ rest = b :: t ∧ b / 32 = 3 := by
      unfold writeStr
      obtain ⟨b, t, heq2, hd⟩ := writeHead_shape 3 e.display.length
      exact ⟨b, t ++ (e.display ++ rest), by rw [List.append_assoc, heq2]; rfl, hd⟩
    rw [heq]
    have hni : ¬ b / 32 ≤ 1 := by omega
    simp only [readEL, if_neg hni, if_pos hdiv]
    rw [← heq, readStr_writeStr e.display rest hwf.2.2]
    unfold normalizeEntry at hn
    rw [if_pos h127] at hn
    simp [Bind.bind, Except.bind, hn]
  · rw [if_neg h127]
    obtain ⟨b, t, heq, hdiv⟩ : ∃ b t, writeI8 e.toI8 ++ rest = b :: t ∧ b / 32 ≤ 1 := by
      unfold writeI8
      by_cases hpos : 0 ≤ e.toI8
      · rw [if_pos hpos]
        obtain ⟨b, t, heq2, hd⟩ := writeHead_shape 0 e.toI8.toNat
        exact ⟨b, t ++ rest, by rw [heq2]; rfl, by omega⟩
      · rw [if_neg hpos]
        obtain ⟨b, t, heq2, hd⟩ := writeHead_shape 1 (-1 - e.toI8).toNat
        exact ⟨b, t ++ rest, by rw [heq2]; rfl, by omega⟩
    rw [heq]
    simp only [readEL, if_pos hdiv]
    rw [← heq, readI8_writeI8 e.toI8 rest hwf.1 hwf.2.1]
    unfold normalizeEntry at hn
    rw [if_neg h127] at hn
    simp [Bind.bind, Except.bind]
    exact (Except.ok.injEq _ _ ▸ hn : _) ▸ rfl

theorem readEL_encodeEL (l l2 : List ContentEncoding) (rest : List Nat)
    (hwf : elWF l) (hn : normalizeEL l = .ok l2) :
    readEL (encodeEL l ++ rest) = .ok (l2, rest) := by
  obtain ⟨hwfe, hlen⟩ := hwf
  unfold encodeEL
  unfold normalizeEL at hn
  revert hn hwfe hlen
  generalize l.filter (fun e => !e.isChunk) = fl
  intro hn hwfe hlen
  match fl with
  | [] =>
      cases hn
      have h0 : readI8 (writeI8 0 ++ rest) = .ok (0, rest) :=
        readI8_writeI8 0 rest (by norm_num) (by norm_num)
      have hw : writeI8 0 ++ rest = 0 :: rest := rfl
      rw [hw] at h0 ⊢
      simp only [readEL]
      norm_num
      simp [h0, Bind.bind, Except.bind, ContentEncoding.ofI8]
  | [e] =>
      simp only [normalizeList] at hn
      rcases hne : normalizeEntry e with err | e2 <;> rw [hne] at hn <;>
        simp only [Bind.bind, Except.bind] at hn
      · cases hn
      · cases hn
        exact readEL_item e e2 rest (hwfe e (by simp)) hne
  | e1 :: e2 :: tl =>
      obtain ⟨b, t, heq2, hd⟩ := writeHead_shape 4 (e1 :: e2 :: tl).length
      have heq : writeHead 4 (e1 :: e2 :: tl).length ++
          ((e1 :: e2 :: tl).foldr (fun e acc => elItemBytes e ++ acc) [] ++ rest) =
          b :: (t ++ ((e1 :: e2 :: tl).foldr (fun e acc => elItemBytes e ++ acc) [] ++ rest)) := by
        rw [heq2]; rfl
      rw [List.append_assoc, heq]
      have hni : ¬ b / 32 ≤ 1 := by omega
      have hn3 : ¬ b / 32 = 3 := by omega
      simp only [readEL, if_neg hni, if_neg hn3, if_pos hd]
      rw [← heq, readHead_writeHead 4 (e1 :: e2 :: tl).length _ hlen]
      simp only [Bind.bind, Except.bind, Option.getD]
      exact readELItems_list (e1 :: e2 :: tl) l2 rest hwfe hn

end Hqfbp

namespace Hqfbp

theorem decodeEntries_slot_mid (o : Option Nat) (n : Nat) (rest : List Nat) (h0 : Header)
    (hwf : ∀ v ∈ o, v < 2 ^ 32) (h00 : h0.message_id = none) :
    decodeEntries (optCount o + n) (optEntry 0 writeUInt o ++ rest) h0 =
      decodeEntries n rest { h0 with message_id := o } := by
  cases o with
  | none =>
      have he : ({ h0 with message_id := none } : Header) = h0 := by rw [← h00]
      simp [optCount, optEntry, he]
  | some v =>
      have hv : v < 2 ^ 32 := hwf v rfl
      simp only [optCount, optEntry]
      rw [Nat.add_comm 1 n]
      simp only [decodeEntries, decodeEntry]
      rw [List.append_assoc,
        readUIntBounded_writeUInt (2 ^ 32) 0 _ (by norm_num) (by norm_num)]
      simp only [Bind.bind, Except.bind]
      rw [readUIntBounded_writeUInt (2 ^ 32) v rest hv (by
        have : (2 : Nat) ^ 32 < 2 ^ 64 := by norm_num
        omega)]

end Hqfbp

namespace Hqfbp

theorem decodeEntries_slot_src (o : Option StrB) (n : Nat) (rest : List Nat) (h0 : Header)
    (hwf : ∀ s ∈ o, s.length < 2 ^ 64) (h00 : h0.src_callsign = none) :
    decodeEntries (optCount o + n) (optEntry 1 writeStr o ++ rest) h0 =
      decodeEntries n rest { h0 with src_callsign := o } := by
  cases o with
  | none =>
      have he : ({ h0 with src_callsign := none } : Header) = h0 := by rw [← h00]
      simp [optCount, optEntry, he]
  | some v =>
      have hv : v.length < 2 ^ 64 := hwf v rfl
      simp only [optCount, optEntry]
      rw [Nat.add_comm 1 n]
      simp only [decodeEntries, decodeEntry]
      rw [List.append_assoc,
        readUIntBounded_writeUInt (2 ^ 32) 1 _ (by norm_num) (by norm_num)]
      simp only [Bind.bind, Except.bind]
      rw [readStr_writeStr v rest hv]

theorem decodeEntries_slot_dst (o : Option StrB) (n : Nat) (rest : List Nat) (h0 : Header)
    (hwf : ∀ s ∈ o, s.length < 2 ^ 64) (h00 : h0.dst_callsign = none) :
    decodeEntries (optCount o + n) (optEntry 2 writeStr o ++ rest) h0 =
      decodeEntries n rest { h0 with dst_callsign := o } := by
  cases o with
  | none =>
      have he : ({ h0 with dst_callsign := none } : Header) = h0 := by rw [← h00]
      simp [optCount, optEntry, he]
  | some v =>
      have hv : v.length < 2 ^ 64 := hwf v rfl
      simp only [optCount, optEntry]
      rw [Nat.add_comm 1 n]
      simp only [decodeEntries, decodeEntry]
      rw [List.append_assoc,
        readUIntBounded_writeUInt (2 ^ 32) 2 _ (by norm_num) (by norm_num)]
      simp only [Bind.bind, Except.bind]
      rw [readStr_writeStr v rest hv]

theorem decodeEntries_slot_format (o : Option Nat) (n : Nat) (rest : List Nat) (h0 : Header)
    (hwf : ∀ v ∈ o, v < 2 ^ 16) (h00 : h0.content_format = none) :
    decodeEntries (optCount o + n) (optEntry 3 writeUInt o ++ rest) h0 =
      decodeEntries n rest { h0 with content_format := o } := by
  cases o with
  | none =>
      have he : ({ h0 with content_format := none } : Header) = h0 := by rw [← h00]
      simp [optCount, optEntry, he]
  | some v =>
      have hv : v < 2 ^ 16 := hwf v rfl
      simp only [optCount, optEntry]
      rw [Nat.add_comm 1 n]
      simp only [decodeEntries, decodeEntry]
      rw [List.append_assoc,
        readUIntBounded_writeUInt (2 ^ 32) 3 _ (by norm_num) (by norm_num)]
      simp only [Bind.bind, Except.bind]
      rw [readUIntBounded_writeUInt (2 ^ 16) v rest hv (by
        have : (2 : Nat) ^ 16 ≤ 2 ^ 64 := by norm_num
        omega)]

theorem decodeEntries_slot_ctype (o : Option StrB) (n : Nat) (rest : List Nat) (h0 : Header)
    (hwf : ∀ s ∈ o, s.length < 2 ^ 64) (h00 : h0.content_type = none) :
    decodeEntries (optCount o + n) (optEntry 4 writeStr o ++ rest) h0 =
      decodeEntries n rest { h0 with content_type := o } := by
  cases o with
  | none =>
      have he : ({ h0 with content_type := none } : Header) = h0 := by rw [← h00]
      simp [optCount, optEntry, he]
  | some v =>
      have hv : v.length < 2 ^ 64 := hwf v rfl
      simp only [optCount, optEntry]
      rw [Nat.add_comm 1 n]
      simp only [decodeEntries, decodeEntry]
      rw [List.append_assoc,
        readUIntBounded_writeUInt (2 ^ 32) 4 _ (by norm_num) (by norm_num)]
      simp only [Bind.bind, Except.bind]
      rw [readStr_writeStr v rest hv]

theorem decodeEntries_slot_ce (o : Option (List ContentEncoding)) (ce2 : Option (List ContentEncoding))
    (n : Nat) (rest : List Nat) (h0 : Header)
    (hwf : ∀ l ∈ o, elWF l) (hn : normalizeELOpt o = .ok ce2) (h00 : h0.content_encoding = none) :
    decodeEntries (optCount o + n) (optEntry 5 encodeEL o ++ rest) h0 =
      decodeEntries n rest { h0 with content_encoding := ce2 } := by
  cases o with
  | none =>
      simp only [normalizeELOpt] at hn
      cases hn
      have he : ({ h0 with content_encoding := none } : Header) = h0 := by rw [← h00]
      simp [optCount, optEntry, he]
  | some l =>
      simp only [normalizeELOpt] at hn
      rcases hnl : normalizeEL l with err | l2 <;> rw [hnl] at hn <;>
        simp only [Except.map] at hn
      · cases hn
      · cases hn
        simp only [optCount, optEntry]
        rw [Nat.add_comm 1 n]
        simp only [decodeEntries, decodeEntry]
        rw [List.append_assoc,
          readUIntBounded_writeUInt (2 ^ 32) 5 _ (by norm_num) (by norm_num)]
        simp only [Bind.bind, Except.bind]
        rw [readEL_encodeEL l l2 rest (hwf l rfl) hnl]

theorem decodeEntries_slot_repr (o : Option StrB) (n : Nat) (rest : List Nat) (h0 : Header)
    (hwf : ∀ s ∈ o, s.length < 2 ^ 64) (h00 : h0.repr_digest = none) :
    decodeEntries (optCount o + n) (optEntry 6 writeBytes o ++ rest) h0 =
      decodeEntries n rest { h0 with repr_digest := o } := by
  cases o with
  | none =>
      have he : ({ h0 with repr_digest := none } : Header) = h0 := by rw [← h00]
      simp [optCount, optEntry, he]
  | some v =>
      have hv : v.length < 2 ^ 64 := hwf v rfl
      simp only [optCount, optEntry]
      rw [Nat.add_comm 1 n]
      simp only [decodeEntries, decodeEntry]
      rw [List.append_assoc,
        readUIntBounded_writeUInt (2 ^ 32) 6 _ (by norm_num) (by norm_num)]
      simp only [Bind.bind, Except.bind]
      rw [readBytes_writeBytes v rest hv]

theorem decodeEntries_slot_cdig (o : Option StrB) (n : Nat) (rest : List Nat) (h0 : Header)
    (hwf : ∀ s ∈ o, s.length < 2 ^ 64) (h00 : h0.content_digest = none) :
    decodeEntries (optCount o + n) (optEntry 7 writeBytes o ++ rest) h0 =
      decodeEntries n rest { h0 with content_digest := o } := by
  cases o with
  | none =>
      have he : ({ h0 with content_digest := none } : Header) = h0 := by rw [← h00]
      simp [optCount, optEntry, he]
  | some v =>
      have hv : v.length < 2 ^ 64 := hwf v rfl
      simp only [optCount, optEntry]
      rw [Nat.add_comm 1 n]
      simp only [decodeEntries, decodeEntry]
      rw [List.append_assoc,
        readUIntBounded_writeUInt (2 ^ 32) 7 _ (by norm_num) (by norm_num)]
      simp only [Bind.bind, Except.bind]
      rw [readBytes_writeBytes v rest hv]

theorem decodeEntries_slot_fsize (o : Option Nat) (n : Nat) (rest : List Nat) (h0 : Header)
    (hwf : ∀ v ∈ o, v < 2 ^ 64) (h00 : h0.file_size = none) :
    decodeEntries (optCount o + n) (optEntry 8 writeUInt o ++ rest) h0 =
      decodeEntries n rest { h0 with file_size := o } := by
  cases o with
  | none =>
      have he : ({ h0 with file_size := none } : Header) = h0 := by rw [← h00]
      simp [optCount, optEntry, he]
  | some v =>
      have hv : v < 2 ^ 64 := hwf v rfl
      simp only [optCount, optEntry]
      rw [Nat.add_comm 1 n]
      simp only [decodeEntries, decodeEntry]
      rw [List.append_assoc,
        readUIntBounded_writeUInt (2 ^ 32) 8 _ (by norm_num) (by norm_num)]
      simp only [Bind.bind, Except.bind]
      rw [readUIntBounded_writeUInt (2 ^ 64) v rest hv (by
        have : (2 : Nat) ^ 64 ≤ 2 ^ 64 := by norm_num
        omega)]

theorem decodeEntries_slot_cid (o : Option Nat) (n : Nat) (rest : List Nat) (h0 : Header)
    (hwf : ∀ v ∈ o, v < 2 ^ 32) (h00 : h0.chunk_id = none) :
    decodeEntries (optCount o + n) (optEntry 9 writeUInt o ++ rest) h0 =
      decodeEntries n rest { h0 with chunk_id := o } := by
  cases o with
  | none =>
      have he : ({ h0 with chunk_id := none } : Header) = h0 := by rw [← h00]
      simp [optCount, optEntry, he]
  | some v =>
      have hv : v < 2 ^ 32 := hwf v rfl
      simp only [optCount, optEntry]
      rw [Nat.add_comm 1 n]
      simp only [decodeEntries, decodeEntry]
      rw [List.append_assoc,
        readUIntBounded_writeUInt (2 ^ 32) 9 _ (by norm_num) (by norm_num)]
      simp only [Bind.bind, Except.bind]
      rw [readUIntBounded_writeUInt (2 ^ 32) v rest hv (by
        have : (2 : Nat) ^ 32 ≤ 2 ^ 64 := by norm_num
        omega)]

theorem decodeEntries_slot_oid (o : Option Nat) (n : Nat) (rest : List Nat) (h0 : Header)
    (hwf : ∀ v ∈ o, v < 2 ^ 32) (h00 : h0.original_message_id = none) :
    decodeEntries (optCount o + n) (optEntry 10 writeUInt o ++ rest) h0 =
      decodeEntries n rest { h0 with original_message_id := o } := by
  cases o with
  | none =>
      have he : ({ h0 with original_message_id := none } : Header) = h0 := by rw [← h00]
      simp [optCount, optEntry, he]
  | some v =>
      have hv : v < 2 ^ 32 := hwf v rfl
      simp only [optCount, optEntry]
      rw [Nat.add_comm 1 n]
      simp only [decodeEntries, decodeEntry]
      rw [List.append_assoc,
        readUIntBounded_writeUInt (2 ^ 32) 10 _ (by norm_num) (by norm_num)]
      simp only [Bind.bind, Except.bind]
      rw [readUIntBounded_writeUInt (2 ^ 32) v rest hv (by
        have : (2 : Nat) ^ 32 ≤ 2 ^ 64 := by norm_num
        omega)]

theorem decodeEntries_slot_total (o : Option Nat) (n : Nat) (rest : List Nat) (h0 : Header)
    (hwf : ∀ v ∈ o, v < 2 ^ 32) (h00 : h0.total_chunks = none) :
    decodeEntries (optCount o + n) (optEntry 11 writeUInt o ++ rest) h0 =
      decodeEntries n rest { h0 with total_chunks := o } := by
  cases o with
  | none =>
      have he : ({ h0 with total_chunks := none } : Header) = h0 := by rw [← h00]
      simp [optCount, optEntry, he]
  | some v =>
      have hv : v < 2 ^ 32 := hwf v rfl
      simp only [optCount, optEntry]
      rw [Nat.add_comm 1 n]
      simp only [decodeEntries, decodeEntry]
      rw [List.append_assoc,
        readUIntBounded_writeUInt (2 ^ 32) 11 _ (by norm_num) (by norm_num)]
      simp only [Bind.bind, Except.bind]
      rw [readUIntBounded_writeUInt (2 ^ 32) v rest hv (by
        have : (2 : Nat) ^ 32 ≤ 2 ^ 64 := by norm_num
        omega)]

theorem decodeEntries_slot_psize (o : Option Nat) (n : Nat) (rest : List Nat) (h0 : Header)
    (hwf : ∀ v ∈ o, v < 2 ^ 64) (h00 : h0.payload_size = none) :
    decodeEntries (optCount o + n) (optEntry 12 writeUInt o ++ rest) h0 =
      decodeEntries n rest { h0 with payload_size := o } := by
  cases o with
  | none =>
      have he : ({ h0 with payload_size := none } : Header) = h0 := by rw [← h00]
      simp [optCount, optEntry, he]
  | some v =>
      have hv : v < 2 ^ 64 := hwf v rfl
      simp only [optCount, optEntry]
      rw [Nat.add_comm 1 n]
      simp only [decodeEntries, decodeEntry]
      rw [List.append_assoc,
        readUIntBounded_writeUInt (2 ^ 32) 12 _ (by norm_num) (by norm_num)]
      simp only [Bind.bind, Except.bind]
      rw [readUIntBounded_writeUInt (2 ^ 64) v rest hv (by
        have : (2 : Nat) ^ 64 ≤ 2 ^ 64 := by norm_num
        omega)]

end Hqfbp

namespace Hqfbp

/-- Well-formedness of a header with respect to the Rust field types
(`u32`/`u16`/`u64` ranges, `usize` lengths) — automatic for any header the
Rust program can hold. -/
def headerWF (h : Header) : Prop :=
  (∀ v ∈ h.message_id, v < 2 ^ 32) ∧
  (∀ s ∈ h.src_callsign, s.length < 2 ^ 64) ∧
  (∀ s ∈ h.dst_callsign, s.length < 2 ^ 64) ∧
  (∀ v ∈ h.content_format, v < 2 ^ 16) ∧
  (∀ s ∈ h.content_type, s.length < 2 ^ 64) ∧
  (∀ l ∈ h.content_encoding, elWF l) ∧
  (∀ s ∈ h.repr_digest, s.length < 2 ^ 64) ∧
  (∀ s ∈ h.content_digest, s.length < 2 ^ 64) ∧
  (∀ v ∈ h.file_size, v < 2 ^ 64) ∧
  (∀ v ∈ h.chunk_id, v < 2 ^ 32) ∧
  (∀ v ∈ h.original_message_id, v < 2 ^ 32) ∧
  (∀ v ∈ h.total_chunks, v < 2 ^ 32) ∧
  (∀ v ∈ h.payload_size, v < 2 ^ 64)

instance (h : Header) : Decidable (headerWF h) := by
  unfold headerWF; infer_instance

theorem optCount_le_one (o : Option α) : optCount o ≤ 1 := by
  cases o <;> simp [optCount]

/-- The core serializer round trip: decoding an encoded header recovers the
header with its `Content-Encoding` sent through the wire normalization, and
leaves the appended payload untouched. -/
theorem decodeHeader_encodeHeader (h : Header) (payload : List Nat)
    (ce2 : Option (List ContentEncoding)) (hwf : headerWF h)
    (hce : normalizeELOpt h.content_encoding = .ok ce2) :
    decodeHeader (encodeHeader h ++ payload) =
      .ok ({ h with content_encoding := ce2 }, payload) := by
  obtain ⟨w1, w2, w3, w4, w5, w6, w7, w8, w9, w10, w11, w12, w13⟩ := hwf
  have hcount : headerFieldCount h < 2 ^ 64 := by
    have b1 := optCount_le_one h.message_id
    have b2 := optCount_le_one h.src_callsign
    have b3 := optCount_le_one h.dst_callsign
    have b4 := optCount_le_one h.content_format
    have b5 := optCount_le_one h.content_type
    have b6 := optCount_le_one h.content_encoding
    have b7 := optCount_le_one h.repr_digest
    have b8 := optCount_le_one h.content_digest
    have b9 := optCount_le_one h.file_size
    have b10 := optCount_le_one h.chunk_id
    have b11 := optCount_le_one h.original_message_id
    have b12 := optCount_le_one h.total_chunks
    have b13 := optCount_le_one h.payload_size
    unfold headerFieldCount
    have : (2 : Nat) ^ 64 = 18446744073709551616 := rfl
    omega
  unfold encodeHeader decodeHeader
  simp only [List.append_assoc]
  rw [readHead_writeHead 5 (headerFieldCount h) _ hcount]
  simp only [Bind.bind, Except.bind]
  norm_num
  unfold headerFieldCount
  rw [decodeEntries_slot_mid _ _ _ _ w1 rfl]
  dsimp only
  rw [decodeEntries_slot_src _ _ _ _ w2 rfl]
  dsimp only
  rw [decodeEntries_slot_dst _ _ _ _ w3 rfl]
  dsimp only
  rw [decodeEntries_slot_format _ _ _ _ w4 rfl]
  dsimp only
  rw [decodeEntries_slot_ctype _ _ _ _ w5 rfl]
  dsimp only
  rw [decodeEntries_slot_ce _ _ _ _ _ w6 hce rfl]
  dsimp only
  rw [decodeEntries_slot_repr _ _ _ _ w7 rfl]
  dsimp only
  rw [decodeEntries_slot_cdig _ _ _ _ w8 rfl]
  dsimp only
  rw [decodeEntries_slot_fsize _ _ _ _ w9 rfl]
  dsimp only
  rw [decodeEntries_slot_cid _ _ _ _ w10 rfl]
  dsimp only
  rw [decodeEntries_slot_oid _ _ _ _ w11 rfl]
  dsimp only
  rw [decodeEntries_slot_total _ _ _ _ w12 rfl]
  dsimp only
  rw [← Nat.add_zero (optCount h.payload_size)]
  rw [decodeEntries_slot_psize _ _ _ _ w13 rfl]
  rfl

end Hqfbp

namespace Hqfbp

theorem getCoapId_bound (s : StrB) (v : Nat) (hv : getCoapId s = some v) : v < 2 ^ 16 := by
  have hall : ∀ p ∈ coapContentFormats, p.2 < 2 ^ 16 := by decide
  unfold getCoapId at hv
  rcases hf : coapContentFormats.find? (fun p => p.1 == s) with _ | p <;> rw [hf] at hv
  · cases hv
  · simp only [Option.map] at hv
    cases hv
    exact hall p (List.mem_of_find?_eq_some hf)

theorem headerWF_packCanon (h : Header) (len : Nat) (hwf : headerWF h) (hlen : len < 2 ^ 64) :
    headerWF (packCanonHeader h len) := by
  obtain ⟨w1, w2, w3, w4, w5, w6, w7, w8, w9, w10, w11, w12, w13⟩ := hwf
  unfold headerWF at *
  unfold packCanonHeader Header.setMediaType Header.mediaType MediaType.canonicalize
  rcases hcf : h.content_format with _ | f
  · rcases hct : h.content_type with _ | s
    · simp_all
    · rcases hid : getCoapId s with _ | v
      · simp_all
      · have hv := getCoapId_bound s v hid
        simp_all
        split <;> simp_all
  · simp_all
    split <;> simp_all

theorem packCanon_message_id (h : Header) (len : Nat) :
    (packCanonHeader h len).message_id = h.message_id := by
  unfold packCanonHeader Header.setMediaType Header.mediaType MediaType.canonicalize
  rcases hcf : h.content_format with _ | f
  · rcases hct : h.content_type with _ | s
    · simp
    · rcases hid : getCoapId s with _ | v
      · simp [hid]
        try split <;> simp
      · simp [hid]
        try split <;> simp
  · simp
    try split <;> simp

end Hqfbp

namespace Hqfbp

/-- C1 (amended): for every well-formed header with `Message-Id` set and
every payload, `unpack (pack h payload)` succeeds and returns the payload
unchanged together with the canonicalized header — `pack`'s documented
canonicalizations (Content-Type to Content-Format where a CoAP mapping
exists with the numeric form winning over the string form, default
Content-Format 0 dropped, Payload-Size set to the payload length) PLUS the
`Content-Encoding` wire normalization (chunk entries stripped, an emptied
list re-read as identity, remaining entries re-read through the short-code
table or the token grammar). -/
theorem C1_roundtrip_amended (h : Header) (payload : ByteL) (h2 : Header)
    (hwf : headerWF h) (hlen : payload.length < 2 ^ 64)
    (hmid : h.message_id.isSome)
    (hcanon : wireCanonHeader h payload.length = .ok h2) :
    (pack h payload).bind unpack = .ok (h2, payload) := by
  unfold pack
  have hmid2 : ¬ h.message_id = none := by
    cases hm : h.message_id <;> simp [hm] at hmid ⊢
  rw [if_neg hmid2]
  simp only [Except.bind]
  unfold unpack
  unfold wireCanonHeader at hcanon
  dsimp only at hcanon
  rcases hce : normalizeELOpt (packCanonHeader h payload.length).content_encoding
      with err | ce2 <;> rw [hce] at hcanon <;>
    simp only [Bind.bind, Except.bind] at hcanon
  · cases hcanon
  · cases hcanon
    rw [decodeHeader_encodeHeader (packCanonHeader h payload.length) payload ce2
      (headerWF_packCanon h payload.length hwf hlen) hce]
    simp only [Bind.bind, Except.bind]
    have hm2 : ({ packCanonHeader h payload.length with content_encoding := ce2 }
        : Header).message_id = h.message_id := packCanon_message_id h payload.length
    rw [if_neg (by rw [hm2]; simp [hmid2])]

/-- Decidable equality of `Except` results, used to evaluate the embedding
on concrete inputs. -/
instance [DecidableEq e] [DecidableEq a] : DecidableEq (Except e a) := fun x y =>
  match x, y with
  | .error u, .error v =>
      if h : u = v then isTrue (by rw [h]) else isFalse (by intro hx; cases hx; exact h rfl)
  | .ok u, .ok v =>
      if h : u = v then isTrue (by rw [h]) else isFalse (by intro hx; cases hx; exact h rfl)
  | .error _, .ok _ => isFalse (by intro hx; cases hx)
  | .ok _, .error _ => isFalse (by intro hx; cases hx)

/-- Witness for C1 (amended) at a concrete header exercising the media-type
canonicalization and the chunk-stripping of the encoding list. -/
theorem C1_roundtrip_amended_witness :
    (pack
      { message_id := some 7
      , src_callsign := some (strB "F4JXQ")
      , content_type := some (strB "application/json")
      , content_encoding := some [ContentEncoding.reedSolomon 6 3, ContentEncoding.h,
          ContentEncoding.crc32, ContentEncoding.chunk 9]
      , file_size := some 1000 } (strB "hi")).bind unpack =
    .ok (
      { message_id := some 7
      , src_callsign := some (strB "F4JXQ")
      , content_format := some 50
      , content_encoding := some [ContentEncoding.reedSolomon 6 3, ContentEncoding.h,
          ContentEncoding.crc32]
      , file_size := some 1000
      , payload_size := some 2 }, strB "hi") :=
  C1_roundtrip_amended _ _ _ (by decide) (by decide) (by decide) (by decide)

/-- C1 as frozen is false: the claim's list of canonicalizations
(Content-Type conversion, default Content-Format dropped, Payload-Size
stamped) is not exhaustive — `pack` additionally strips `chunk(…)` entries
from Content-Encoding, and an encoding list emptied this way reads back as
`[identity]`.  At the concrete header below the round trip yields a header
differing from the claim's prediction. -/
theorem C1_counterexample :
    (pack { message_id := some 1, content_encoding := some [ContentEncoding.chunk 5] }
        []).bind unpack =
      .ok ({ message_id := some 1, content_encoding := some [ContentEncoding.identity]
           , payload_size := some 0 }, []) ∧
    claimCanonHeader
        { message_id := some 1, content_encoding := some [ContentEncoding.chunk 5] } 0 =
      { message_id := some 1, content_encoding := some [ContentEncoding.chunk 5]
      , payload_size := some 0 } ∧
    ({ message_id := some 1, content_encoding := some [ContentEncoding.identity]
     , payload_size := some 0 } : Header) ≠
      { message_id := some 1, content_encoding := some [ContentEncoding.chunk 5]
      , payload_size := some 0 } :=
  ⟨by decide, by decide, by decide⟩

end Hqfbp

namespace Hqfbp

/-- C9 (amended): for inputs whose leading CBOR header decodes, `unpack`
succeeds when `Message-Id` is present; when it is absent, `unpack` succeeds
if and only if the header's `content_type` is the explicit string
`application/vnd.hqfbp+cbor` — the numeric CoAP form (`Content-Format` 60)
is NOT consulted and does not excuse a missing `Message-Id`. -/
theorem C9_unpack_amended (data : ByteL) (h : Header) (rest : ByteL)
    (hdec : decodeHeader data = .ok (h, rest)) :
    ((h.message_id.isSome ∨ h.content_type = some (strB "application/vnd.hqfbp+cbor")) →
      unpack data = .ok (h, rest)) ∧
    ((h.message_id = none ∧ h.content_type ≠ some (strB "application/vnd.hqfbp+cbor")) →
      unpack data = .error ()) := by
  unfold unpack
  rw [hdec]
  simp only [Bind.bind, Except.bind]
  constructor
  · intro hc
    rw [if_neg]
    rintro ⟨hnone, hne⟩
    rcases hc with hm | hct
    · rw [hnone] at hm; cases hm
    · exact hne hct
  · intro hc
    rw [if_pos hc]

/-- Witness for C9 (amended): a two-field map `{0: 1}` decodes and unpacks. -/
theorem C9_unpack_amended_witness :
    unpack [161, 0, 1] = .ok ({ message_id := some 1 }, []) :=
  (C9_unpack_amended [161, 0, 1] { message_id := some 1 } [] (by decide)).1 (by decide)

/-- C9 as frozen is false: a header whose media type is the numeric CoAP
format 60 (`application/cbor`, the announcement form) but with no
`Message-Id` is REJECTED by `unpack` (`[161, 3, 24, 60]` is the CBOR map
`{3: 60}`), although the claim predicts success. -/
theorem C9_counterexample :
    decodeHeader [161, 3, 24, 60] = .ok ({ content_format := some 60 }, []) ∧
    ({ content_format := some 60 } : Header).mediaType = some (MediaType.format 60) ∧
    unpack [161, 3, 24, 60] = .error () :=
  ⟨by decide, by decide, by decide⟩

end Hqfbp

namespace Hqfbp

/-! ### Codec free functions (`src/codec.rs`)

The pure, in-repository codec primitives are embedded directly.  The bodies
of the external crates (flate2, brotli, lzma-rs, raptorq, reed-solomon, and
the floating-point LT sampler of `src/codec/lt.rs`) are not code of this
repository; they are held abstract in the `Ext` oracle record further
below, with the repository's wrapper logic around them embedded
faithfully. -/

/-- One bit step of CRC-16/CCITT-FALSE (poly `0x1021`, unreflected), as
computed by the `crc` crate for the algorithm constants in
`crc16_ccitt`. -/
def crc16Step (c : Nat) : Nat :=
  if c &&& 32768 ≠ 0 then ((c <<< 1) ^^^ 0x1021) &&& 65535 else (c <<< 1) &&& 65535

/-- `crc16_ccitt` (`src/codec.rs`): init `0xFFFF`, no reflection, no xorout,
result as two big-endian bytes. -/
def crc16_ccitt (data : ByteL) : ByteL :=
  let c := data.foldl (fun c b => (crc16Step)^[8] (c ^^^ ((b % 256) <<< 8))) 0xFFFF
  [c / 256 % 256, c % 256]

/-- One bit step of CRC-32/ISO-HDLC (reflected, poly `0xEDB88320`). -/
def crc32Step (c : Nat) : Nat :=
  if c % 2 = 1 then (c >>> 1) ^^^ 0xEDB88320 else c >>> 1

/-- `crc32_std` (`src/codec.rs`): the standard CRC-32 (`CRC_32_ISO_HDLC`),
result as four big-endian bytes. -/
def crc32_std (data : ByteL) : ByteL :=
  let c := data.foldl (fun c b => (crc32Step)^[8] (c ^^^ (b % 256))) 0xFFFFFFFF
  let r := c ^^^ 0xFFFFFFFF
  [r / 2 ^ 24 % 256, r / 2 ^ 16 % 256, r / 2 ^ 8 % 256, r % 256]

/-- Parity (xor of all bits) of a natural number — the feedback loop
`while temp != 0 { feedback ^= temp & 1; temp >>= 1 }` of `scr_xor`. -/
def parityBits (n : Nat) : Nat :=
  if n = 0 then 0 else (n % 2) ^^^ parityBits (n / 2)
decreasing_by exact Nat.div_lt_self (by omega) (by omega)

/-- The MSB-first bits of one byte, `(b >> i) & 1` for `i = 7..0`. -/
def bitsOfByte (b : Nat) : List Nat :=
  [(b >>> 7) &&& 1, (b >>> 6) &&& 1, (b >>> 5) &&& 1, (b >>> 4) &&& 1,
   (b >>> 3) &&& 1, (b >>> 2) &&& 1, (b >>> 1) &&& 1, b &&& 1]

/-- Repack MSB-first bits into a value (`out_byte = (out_byte << 1) | bit`). -/
def byteOfBits (l : List Nat) : Nat := l.foldl (fun acc b => (acc <<< 1) ||| b) 0

/-- The per-bit loop of `scr_xor` (`src/codec.rs`), processing a list of
bits: feedback is the parity of `state & poly`, the output bit is the input
xor the feedback, and the state shifts in the feedback (reloading the mask
on zero-lock).  The state never depends on the data bits. -/
def scrBitsGo (poly mask : Nat) : Nat → List Nat → Nat × List Nat
  | st, [] => (st, [])
  | st, bit :: rest =>
      let feedback := parityBits (st &&& poly)
      let st1 := ((st <<< 1) ||| feedback) &&& mask
      let st2 := if st1 = 0 then mask else st1
      let (st3, out) := scrBitsGo poly mask st2 rest
      (st3, (bit ^^^ feedback) :: out)

/-- The per-byte loop of `scr_xor`: split into MSB-first bits, run the bit
loop, repack (the Rust builds `out_byte` by left-shifting in each output
bit, which is exactly `byteOfBits` of the output bit list). -/
def scrBytesGo (poly mask : Nat) : Nat → ByteL → ByteL
  | _, [] => []
  | st, b :: rest =>
      byteOfBits (scrBitsGo poly mask st (bitsOfByte b)).2 ::
        scrBytesGo poly mask (scrBitsGo poly mask st (bitsOfByte b)).1 rest

/-- `scr_xor` (`src/codec.rs`): multiplicative-style additive scrambler.
The initial state is the seed if given, else the all-ones mask of the
polynomial's bit width (`width = 64 - leading_zeros(poly)`, so the mask is
`2 ^ (log2 poly + 1) - 1`). -/
def scr_xor (data : ByteL) (poly_mask : Nat) (seed : Option Nat) : ByteL :=
  if poly_mask = 0 then data
  else
    let width := Nat.log2 poly_mask + 1
    let mask :=
      match seed with
      | some s => s
      | none => if width = 64 then 2 ^ 64 - 1 else 2 ^ width - 1
    scrBytesGo poly_mask mask mask data

end Hqfbp

namespace Hqfbp

/-- All bits of a byte list, MSB-first (the bit-unpacking loops of
`conv_encode`/`conv_decode`). -/
def bitsOfBytes (data : ByteL) : List Nat :=
  data.foldr (fun b acc => bitsOfByte b ++ acc) []

/-- Pack a bit list into bytes, zero-padding the final short chunk (the
`bits.chunks(8)` loop of `conv_encode`). -/
def packBitsPad (l : List Nat) : ByteL :=
  if l = [] then []
  else byteOfBits ((l.take 8) ++ List.replicate (8 - (l.take 8).length) 0) ::
    packBitsPad (l.drop 8)
termination_by l.length
decreasing_by
  rename_i hne
  have : l.length ≠ 0 := fun h0 => hne (List.eq_nil_of_length_eq_zero h0)
  simp [List.length_drop]
  omega

/-- Pack a bit list into bytes, discarding the final short chunk (the
`chunks(8)` loop of `conv_decode`, which `break`s on a short chunk). -/
def packBitsExact (l : List Nat) : ByteL :=
  if l.length < 8 then []
  else byteOfBits (l.take 8) :: packBitsExact (l.drop 8)
termination_by l.length
decreasing_by
  simp [List.length_drop]
  omega

/-- `conv_encode` (`src/codec.rs`): constraint length 7, rate 1/2,
generators `0o133`/`0o171`; shifts the input bits MSB-first through a 7-bit
register, emits two parity bits per input bit, flushes with six zeros.  The
inner `for i in 0..7` parity accumulations are the bit parity of
`generator & state`. -/
def conv_encode (data : ByteL) (k : Nat) (rate : StrB) : Except Unit ByteL :=
  if k ≠ 7 ∨ rate ≠ strB "1/2" then .error ()
  else
    let input_bits := bitsOfBytes data ++ List.replicate 6 0
    let step := fun (acc : List Nat × Nat) (bit : Nat) =>
      let st := ((acc.2 <<< 1) ||| bit) &&& 0x7F
      let p1 := parityBits (0o133 &&& st)
      let p2 := parityBits (0o171 &&& st)
      (acc.1 ++ [p1, p2], st &&& 0x3F)
    .ok (packBitsPad (input_bits.foldl step ([], 0)).1)

/-- One trellis transition of the Viterbi decoder (`CONV_TRANSITIONS`). -/
def convTransFor (s bit : Nat) : Nat × Nat × Nat :=
  let nf := (s <<< 1) ||| bit
  (nf &&& 0x3F, parityBits (0o133 &&& nf), parityBits (0o171 &&& nf))

/-- One Viterbi time step of `conv_decode`: extend every reachable state by
both transitions, keep the minimum-metric predecessor
(`u32::MAX = 4294967295` marks unreachable states). -/
def convStep (r1 r2 : Nat) (metrics : List Nat) : List Nat × List Nat :=
  (List.range 64).foldl (fun (acc : List Nat × List Nat) s =>
    let m := metrics.getD s 4294967295
    if m = 4294967295 then acc
    else
      [0, 1].foldl (fun (acc2 : List Nat × List Nat) bit =>
        let t := convTransFor s bit
        let dist := (r1 ^^^ t.2.1) + (r2 ^^^ t.2.2)
        let nd := m + dist
        if nd < acc2.1.getD t.1 4294967295 then
          (acc2.1.set t.1 nd, acc2.2.set t.1 ((s <<< 1) ||| bit))
        else acc2) acc)
    (List.replicate 64 4294967295, List.replicate 64 0)

/-- Backtracking through the per-step predecessor rows: returns the decoded
bits in forward order and the initial state. -/
def convBacktrack : List (List Nat) → Nat → List Nat × Nat
  | [], curr => ([], curr)
  | row :: rest, curr =>
      let (bitsRest, stateAfter) := convBacktrack rest curr
      let entry := row.getD stateAfter 0
      ((entry &&& 1) :: bitsRest, entry >>> 1)

/-- `conv_decode` (`src/codec.rs`): hard-decision Viterbi over 64 states,
start state 0, backtrack from the lowest-metric final state (first minimum
wins), drop the six flush bits, drop any incomplete trailing byte. -/
def conv_decode (data : ByteL) (k : Nat) (rate : StrB) : Except Unit (ByteL × Nat) :=
  if k ≠ 7 ∨ rate ≠ strB "1/2" then .error ()
  else
    let input_bits := bitsOfBytes data
    let num_steps := input_bits.length / 2
    if num_steps = 0 then .ok ([], 0)
    else
      let stepPairs := (List.range num_steps).map
        (fun i => (input_bits.getD (2 * i) 0, input_bits.getD (2 * i + 1) 0))
      let init := (List.replicate 64 4294967295).set 0 0
      let (metrics, rowsRev) := stepPairs.foldl
        (fun (acc : List Nat × List (List Nat)) p =>
          let r := convStep p.1 p.2 acc.1
          (r.1, r.2 :: acc.2)) (init, [])
      let best := (List.range 64).foldl
        (fun (acc : Nat × Nat) s =>
          let m := metrics.getD s 4294967295
          if m < acc.2 then (s, m) else acc) (0, metrics.getD 0 4294967295)
      let (bits, _) := convBacktrack rowsRev.reverse best.1
      let trimmed := if bits.length > 6 then bits.take (bits.length - 6) else []
      .ok (packBitsExact trimmed, best.2)

/-- The Golay B matrix (`src/codec/golay.rs`). -/
def GOLAY_B : List Nat :=
  [0x8ED, 0x1DB, 0x3B6, 0x76C, 0xED8, 0xDB5, 0xB6B, 0x6D7, 0xDAE, 0xB5D, 0x6BA, 0xD74]

/-- `encode_codeword` (`src/codec/golay.rs`): 12 data bits to a 24-bit
systematic codeword. -/
def encode_codeword (data : Nat) : Nat :=
  let parity := (List.range 12).foldl
    (fun p i => if (data >>> (11 - i)) &&& 1 ≠ 0 then p ^^^ GOLAY_B.getD i 0 else p) 0
  (data <<< 12) ||| parity

/-- `golay_encode` (`src/codec/golay.rs`): groups of 3 input bytes
(zero-padded) to two codewords, 6 output bytes. -/
def golay_encode : ByteL → ByteL
  | [] => []
  | b1 :: rest =>
      let b2 := rest.getD 0 0
      let b3 := rest.getD 1 0
      let w1 := ((b1 % 256) <<< 4) ||| ((b2 % 256) >>> 4)
      let w2 := ((b2 &&& 0x0F) <<< 8) ||| (b3 % 256)
      let c1 := encode_codeword w1
      let c2 := encode_codeword w2
      [(c1 >>> 16) &&& 255, (c1 >>> 8) &&& 255, c1 &&& 255,
       (c2 >>> 16) &&& 255, (c2 >>> 8) &&& 255, c2 &&& 255] ++ golay_encode (rest.drop 2)
termination_by l => l.length
decreasing_by
  simp [List.length_drop]
  omega

end Hqfbp

namespace Hqfbp

/-! ### The `Codec` trait implementations (`src/codec/*.rs`) and the factory -/

/-- `CodecContext` (`src/codec/mod.rs`). -/
structure CodecContext where
  src_callsign : Option StrB := none
  dst_callsign : Option StrB := none
  next_msg_id : Nat := 0
  original_message_id : Option Nat := none
  last_min_header_size : Nat := 2 ^ 64 - 1
  last_max_header_size : Nat := 0
  last_total_header_size : Nat := 0
  file_size : Option Nat := none
  payload_size : Option Nat := none
  media_type : Option MediaType := none
  encodings : List ContentEncoding := []
  announcement_mode : Bool := false
  current_index : Nat := 0
deriving DecidableEq, Repr

/-- Which implementation `CodecFactory::get_encoding` (`src/codec/mod.rs`)
instantiates for each descriptor.  `Deflate` has no arm of its own and hits
the `_ => Identity` fallback, as do the `OtherString`/`OtherInteger`
escape hatches. -/
inductive CodecImpl where
  | h
  | identity
  | gzip
  | brotli
  | lzma
  | crc16C
  | crc32C
  | rs (n k : Nat)
  | rq (len mtu rep : Nat)
  | rqDyn (mtu rep : Nat)
  | rqDynPercent (mtu p : Nat)
  | ltC (len mtu rep : Nat)
  | ltDyn (mtu rep : Nat)
  | convC (k : Nat) (r : StrB)
  | golayC (n k : Nat)
  | scramblerC (p : Nat) (s : Option Nat)
  | asmC (w : ByteL)
  | postAsmC (w : ByteL)
  | chunkC (s : Nat)
  | repeatC (n : Nat)
  | ax25C
deriving DecidableEq, Repr

/-- `CodecFactory::get_encoding` (`src/codec/mod.rs`), cache aside (the
cache only memoizes; the instantiated codec per descriptor is this map). -/
def CodecFactory.getEncoding : ContentEncoding → CodecImpl
  | .h => .h
  | .identity => .identity
  | .gzip => .gzip
  | .brotli => .brotli
  | .lzma => .lzma
  | .crc16 => .crc16C
  | .crc32 => .crc32C
  | .reedSolomon n k => .rs n k
  | .raptorQ l m r => .rq l m r
  | .raptorQDynamic m r => .rqDyn m r
  | .raptorQDynamicPercent m p => .rqDynPercent m p
  | .ltCode l m r => .ltC l m r
  | .ltDynamic m r => .ltDyn m r
  | .conv k r => .convC k r
  | .golay n k => .golayC n k
  | .scrambler p s => .scramblerC p s
  | .asm w => .asmC w
  | .postAsm w => .postAsmC w
  | .chunk s => .chunkC s
  | .repeatN n => .repeatC n
  | .ax25 => .ax25C
  | _ => .identity

/-- `Identity::encode` (`src/codec/identity.rs`). -/
def Identity.encode (data : List ByteL) : List ByteL := data

/-- `Identity::try_decode` (`src/codec/identity.rs`): pass-through with
quality 1 (the `1.0` of the source, qualities scaled to integers here). -/
def Identity.tryDecode (chunks : List ByteL) : List ByteL × Nat := (chunks, 1)

/-- The splitting loop of `Chunk::encode` (`src/codec/chunk.rs`).  The Rust
loop does not terminate for `size = 0`; that degenerate parameter is mapped
to `[]` here and excluded from every theorem. -/
def chunkSplit (size : Nat) (chunk : ByteL) : List ByteL :=
  if chunk = [] then []
  else if size = 0 then []
  else chunk.take size :: chunkSplit size (chunk.drop size)
termination_by chunk.length
decreasing_by
  rename_i hne hs
  have : chunk.length ≠ 0 := fun h0 => hne (List.eq_nil_of_length_eq_zero h0)
  simp [List.length_drop]
  omega

/-- `Chunk::encode` (`src/codec/chunk.rs`). -/
def Chunk.encode (size : Nat) (data : List ByteL) : List ByteL :=
  data.foldr (fun c acc => chunkSplit size c ++ acc) []

/-- `Chunk::try_decode` (`src/codec/chunk.rs`): concatenate in list order. -/
def Chunk.tryDecode (chunks : List ByteL) : List ByteL × Nat :=
  if chunks = [] then ([], 1)
  else ([chunks.foldr (fun b acc => b ++ acc) []], 1)

/-- `Repeat::encode` (`src/codec/repeat.rs`). -/
def Repeat.encode (count : Nat) (data : List ByteL) : List ByteL :=
  data.foldr (fun c acc => List.replicate count c ++ acc) []

/-- The `step_by` selection of `Repeat::try_decode` (indices 0, step,
2·step, …; `step ≥ 1` whenever called). -/
def stepBy (step : Nat) : List α → List α
  | [] => []
  | x :: rest => x :: stepBy step (rest.drop (step - 1))
termination_by l => l.length
decreasing_by
  simp [List.length_drop]
  omega

/-- `Repeat::try_decode` (`src/codec/repeat.rs`). -/
def Repeat.tryDecode (count : Nat) (chunks : List ByteL) : List ByteL × Nat :=
  if chunks.length > 1 ∧ count > 0 then (stepBy count chunks, 1) else (chunks, 1)

/-- The per-fragment `for` loops of the fallible decoders (`?` on each
item). -/
def mapMExcept (f : a → Except Unit b) : List a → Except Unit (List b)
  | [] => .ok []
  | x :: rest => do
      let y ← f x
      let l ← mapMExcept f rest
      .ok (y :: l)

/-- `Crc16::encode` (`src/codec/crc16.rs`). -/
def Crc16.encode (data : List ByteL) : List ByteL :=
  data.map (fun c => c ++ crc16_ccitt c)

/-- The backward scan of the CRC decoders: test lengths from
`data.length - 1` down to `minLen`, accepting the first whose trailing
`crcLen` bytes match the checksum of the prefix.  (`minLen ≥ crcLen ≥ 2` at
every call site, so the extra base case at 0 is unreachable.) -/
def crcScanGo (crcFn : ByteL → ByteL) (crcLen : Nat) (data : ByteL) :
    Nat → Nat → Option Nat
  | 0, _ => none
  | testLen + 1, minLen =>
      if testLen + 1 < minLen then none
      else
        let pcl := testLen + 1 - crcLen
        if crcFn (data.take pcl) = (data.drop pcl).take (testLen + 1 - pcl) then some pcl
        else crcScanGo crcFn crcLen data testLen minLen

/-- Shared structure of `Crc16::try_decode`/`Crc32::try_decode`: direct
check of the trailing checksum, then the bounded backward scan
(`min_len = len - 256` for long inputs). -/
def crcTryDecodeOne (crcFn : ByteL → ByteL) (crcLen : Nat) (data : ByteL) :
    Except Unit ByteL :=
  let direct : Option Nat :=
    if data.length ≥ crcLen then
      (if crcFn (data.take (data.length - crcLen)) = data.drop (data.length - crcLen)
       then some (data.length - crcLen) else none)
    else none
  let validLen : Option Nat :=
    match direct with
    | some v => some v
    | none =>
        if data.length > crcLen then
          crcScanGo crcFn crcLen data (data.length - 1)
            (if data.length > 300 then data.length - 256 else crcLen)
        else none
  match validLen with
  | some vl => .ok (data.take vl)
  | none => .error ()

/-- `Crc16::try_decode` (`src/codec/crc16.rs`), quality 1000. -/
def Crc16.tryDecode (chunks : List ByteL) : Except Unit (List ByteL × Nat) :=
  (mapMExcept (crcTryDecodeOne crc16_ccitt 2) chunks).map (fun l => (l, 1000))

/-- `Crc32::encode` (`src/codec/crc32.rs`). -/
def Crc32.encode (data : List ByteL) : List ByteL :=
  data.map (fun c => c ++ crc32_std c)

/-- `Crc32::try_decode` (`src/codec/crc32.rs`), quality 1000. -/
def Crc32.tryDecode (chunks : List ByteL) : Except Unit (List ByteL × Nat) :=
  (mapMExcept (crcTryDecodeOne crc32_std 4) chunks).map (fun l => (l, 1000))

/-- `Scrambler::encode` (`src/codec/scr.rs`). -/
def Scrambler.encode (poly : Nat) (seed : Option Nat) (data : List ByteL) : List ByteL :=
  data.map (fun c => scr_xor c poly seed)

/-- `Scrambler::try_decode` (`src/codec/scr.rs`): the identical transform. -/
def Scrambler.tryDecode (poly : Nat) (seed : Option Nat) (chunks : List ByteL) :
    List ByteL × Nat :=
  (chunks.map (fun c => scr_xor c poly seed), 1)

/-- `Asm::encode` (`src/codec/asm.rs`): prepend the sync word. -/
def Asm.encode (w : ByteL) (data : List ByteL) : List ByteL :=
  data.map (fun c => w ++ c)

/-- `Asm::try_decode` (`src/codec/asm.rs`): exact prefix match or failure. -/
def Asm.tryDecode (w : ByteL) (chunks : List ByteL) : Except Unit (List ByteL × Nat) :=
  (mapMExcept (fun data =>
    if w.isPrefixOf data then Except.ok (data.drop w.length)
    else Except.error ()) chunks).map (fun l => (l, 1000))

/-- `PostAsm::encode` (`src/codec/post_asm.rs`): append the sync word. -/
def PostAsm.encode (w : ByteL) (data : List ByteL) : List ByteL :=
  data.map (fun c => c ++ w)

/-- Last window position equal to `w` (`windows(w.len()).rposition`),
searching downward from `p`. -/
def rposFrom (w data : ByteL) : Nat → Option Nat
  | 0 => if (data.drop 0).take w.length = w then some 0 else none
  | p + 1 =>
      if (data.drop (p + 1)).take w.length = w then some (p + 1)
      else rposFrom w data p

/-- `PostAsm::try_decode` (`src/codec/post_asm.rs`): truncate at the last
occurrence of the sync word (the context's `payload_size` side effect is
not modelled; no claim reads it). -/
def PostAsm.tryDecode (w : ByteL) (chunks : List ByteL) : Except Unit (List ByteL × Nat) :=
  (mapMExcept (fun data =>
    if data.length < w.length then Except.error ()
    else
      match rposFrom w data (data.length - w.length) with
      | some pos => Except.ok (data.take pos)
      | none => Except.error ()) chunks).map (fun l => (l, 1000))

/-- `H::encode` (`src/codec/h.rs`): wrap each fragment in a freshly built
header (template from the context; chunk fields only when fanning out;
media type omitted from non-zero chunks), serialized with `pack`. -/
def H.encode (data : List ByteL) (ctx : CodecContext) :
    Except Unit (List ByteL × CodecContext) := do
  let total_chunks := data.length
  let data_orig_id := ctx.next_msg_id
  let template : Header :=
    Header.setMediaType
      { file_size := ctx.file_size
      , src_callsign := ctx.src_callsign
      , dst_callsign := ctx.dst_callsign } ctx.media_type
  let step := fun (acc : List ByteL × CodecContext × Nat)
      (chunk_data : ByteL) => do
    let (done, c, idx) := acc
    let (msg_id, c) :=
      if idx = 0 then
        (data_orig_id,
         if c.next_msg_id = data_orig_id then { c with next_msg_id := c.next_msg_id + 1 }
         else c)
      else (c.next_msg_id, { c with next_msg_id := c.next_msg_id + 1 })
    let header := template
    let header :=
      if total_chunks > 1 then
        { header with total_chunks := some total_chunks, chunk_id := some idx,
                      original_message_id := some data_orig_id }
      else header
    let header := { header with message_id := some msg_id }
    let header := if idx > 0 then header.setMediaType none else header
    let header := { header with content_encoding := some c.encodings }
    let header := { header with payload_size := some chunk_data.length }
    let packed ← pack header chunk_data
    let h_size := packed.length - chunk_data.length
    let c := { c with
      last_min_header_size := min c.last_min_header_size h_size,
      last_max_header_size := max c.last_max_header_size h_size,
      last_total_header_size := c.last_total_header_size + h_size }
    Except.ok (done ++ [packed], c, idx + 1)
  let (out, c, _) ← data.foldlM step (([] : List ByteL), ctx, 0)
  .ok (out, c)

/-- `H::try_decode` (`src/codec/h.rs`): a plain join of the chunks — H does
NOT strip the header on the byte level (the deframer parses headers through
`unpack_header` instead). -/
def H.tryDecode (chunks : List ByteL) : List ByteL × Nat :=
  if chunks = [] then ([], 1)
  else ([chunks.foldr (fun b acc => b ++ acc) []], 1)

end Hqfbp

namespace Hqfbp

/-! ### Round-trip lemmas for the pure catalog codecs (claim C2) -/

theorem chunkSplit_join (size : Nat) (hsize : 0 < size) : ∀ (I : ByteL),
    (chunkSplit size I).foldr (fun b acc => b ++ acc) [] = I := by
  have main : ∀ (n : Nat) (I : ByteL), I.length = n →
      (chunkSplit size I).foldr (fun b acc => b ++ acc) [] = I := by
    intro n
    induction n using Nat.strong_induction_on with
    | _ n ih =>
      intro I hn
      unfold chunkSplit
      by_cases hI : I = []
      · simp [hI]
      · rw [if_neg hI, if_neg (by omega)]
        simp only [List.foldr_cons]
        have hlen : I.length ≠ 0 := fun h0 => hI (List.eq_nil_of_length_eq_zero h0)
        rw [ih (I.drop size).length (by simp [List.length_drop]; omega) (I.drop size) rfl]
        exact List.take_append_drop size I
  intro I
  exact main I.length I rfl

theorem chunkSplit_ne_nil (size : Nat) (hsize : 0 < size) (I : ByteL) (hI : I ≠ []) :
    chunkSplit size I ≠ [] := by
  unfold chunkSplit
  rw [if_neg hI, if_neg (by omega)]
  simp

theorem stepBy_replicate (count : Nat) (hc : 0 < count) (I : ByteL) :
    stepBy count (List.replicate count I) = [I] := by
  cases count with
  | zero => omega
  | succ k =>
      rw [List.replicate_succ]
      unfold stepBy
      rw [Nat.succ_sub_one, List.drop_replicate]
      simp [stepBy]

theorem crcTryDecodeOne_roundtrip (crcFn : ByteL → ByteL) (crcLen : Nat)
    (hlen : ∀ x, (crcFn x).length = crcLen) (I : ByteL) :
    crcTryDecodeOne crcFn crcLen (I ++ crcFn I) = .ok I := by
  unfold crcTryDecodeOne
  have hL : (I ++ crcFn I).length = I.length + crcLen := by
    simp [List.length_append, hlen]
  have htake : (I ++ crcFn I).take I.length = I := List.take_left I (crcFn I)
  have hdrop : (I ++ crcFn I).drop I.length = crcFn I := List.drop_left I (crcFn I)
  rw [hL, if_pos (show I.length + crcLen ≥ crcLen by omega), Nat.add_sub_cancel,
    htake, hdrop, if_pos rfl]
  simp [htake]

theorem parityBits_lt_two (n : Nat) : parityBits n < 2 := by
  induction n using Nat.strong_induction_on with
  | _ n ih =>
    unfold parityBits
    by_cases h0 : n = 0
    · simp [h0]
    · rw [if_neg h0]
      have h1 := ih (n / 2) (Nat.div_lt_self (by omega) (by omega))
      have h2 : n % 2 < 2 := Nat.mod_lt _ (by omega)
      generalize hg1 : parityBits (n / 2) = p at h1
      generalize hg2 : n % 2 = q at h2
      interval_cases p <;> interval_cases q <;> decide

theorem scrBitsGo_len (poly mask : Nat) : ∀ (bs : List Nat) (st : Nat),
    (scrBitsGo poly mask st bs).2.length = bs.length := by
  intro bs
  induction bs with
  | nil => intro st; simp [scrBitsGo]
  | cons b rest ih =>
      intro st
      simp only [scrBitsGo]
      simp [ih]

theorem scrBitsGo_state_indep (poly mask : Nat) : ∀ (bs cs : List Nat) (st : Nat),
    bs.length = cs.length →
    (scrBitsGo poly mask st bs).1 = (scrBitsGo poly mask st cs).1 := by
  intro bs
  induction bs with
  | nil =>
      intro cs st hlen
      cases cs with
      | nil => rfl
      | cons c cr => simp at hlen
  | cons b rest ih =>
      intro cs st hlen
      cases cs with
      | nil => simp at hlen
      | cons c cr =>
          simp only [List.length_cons] at hlen
          simp only [scrBitsGo]
          exact ih cr _ (by omega)

theorem scrBitsGo_bits_lt (poly mask : Nat) : ∀ (bs : List Nat) (st : Nat),
    (∀ x ∈ bs, x < 2) → ∀ y ∈ (scrBitsGo poly mask st bs).2, y < 2 := by
  intro bs
  induction bs with
  | nil => intro st hb y hy; simp [scrBitsGo] at hy
  | cons b rest ih =>
      intro st hb y hy
      simp only [scrBitsGo] at hy
      rcases List.mem_cons.mp hy with h | h
      · subst h
        have hblt : b < 2 := hb b (by simp)
        have hp := parityBits_lt_two (st &&& poly)
        generalize hg : parityBits (st &&& poly) = p at hp ⊢
        interval_cases b <;> interval_cases p <;> decide
      · exact ih _ (fun x hx => hb x (by simp [hx])) y h

theorem scrBitsGo_inv (poly mask : Nat) : ∀ (bs : List Nat) (st : Nat),
    (scrBitsGo poly mask st ((scrBitsGo poly mask st bs).2)).2 = bs := by
  intro bs
  induction bs with
  | nil => intro st; simp [scrBitsGo]
  | cons b rest ih =>
      intro st
      simp only [scrBitsGo, List.cons.injEq]
      exact ⟨Nat.xor_cancel_right _ _, ih _⟩

/-! ### Bit/byte repacking and the scrambler involution -/

theorem bitsOfByte_lt_two (b : Nat) : ∀ x ∈ bitsOfByte b, x < 2 := by
  intro x hx
  simp only [bitsOfByte, List.mem_cons, List.not_mem_nil, or_false] at hx
  rcases hx with rfl | rfl | rfl | rfl | rfl | rfl | rfl | rfl <;>
    · rw [Nat.and_one_is_mod]; exact Nat.mod_lt _ (by omega)

theorem byteOfBits_bitsOfByte : ∀ b < 256, byteOfBits (bitsOfByte b) = b := by decide

theorem bitsOfByte_byteOfBits (l : List Nat) (hlen : l.length = 8)
    (hlt : ∀ x ∈ l, x < 2) : bitsOfByte (byteOfBits l) = l := by
  rcases l with _ | ⟨a, _ | ⟨b, _ | ⟨c, _ | ⟨d, _ | ⟨e, _ | ⟨f, _ | ⟨g, _ | ⟨h, _ | ⟨i, t⟩⟩⟩⟩⟩⟩⟩⟩⟩ <;>
    simp only [List.length_cons, List.length_nil] at hlen <;> try omega
  have ha : a < 2 := hlt a (by simp)
  have hb : b < 2 := hlt b (by simp)
  have hc : c < 2 := hlt c (by simp)
  have hd : d < 2 := hlt d (by simp)
  have he : e < 2 := hlt e (by simp)
  have hf : f < 2 := hlt f (by simp)
  have hg : g < 2 := hlt g (by simp)
  have hh : h < 2 := hlt h (by simp)
  interval_cases a <;> interval_cases b <;> interval_cases c <;> interval_cases d <;>
    interval_cases e <;> interval_cases f <;> interval_cases g <;> interval_cases h <;> rfl

theorem scrBytesGo_inv (poly mask : Nat) : ∀ (data : ByteL) (st : Nat),
    (∀ b ∈ data, b < 256) →
    scrBytesGo poly mask st (scrBytesGo poly mask st data) = data := by
  intro data
  induction data with
  | nil => intro st _; rfl
  | cons b rest ih =>
      intro st hb
      rcases hsb : scrBitsGo poly mask st (bitsOfByte b) with ⟨st2, outBits⟩
      have houtlen : outBits.length = (bitsOfByte b).length := by
        have hl := scrBitsGo_len poly mask (bitsOfByte b) st
        rw [hsb] at hl
        exact hl
      have houtlen8 : outBits.length = 8 := houtlen
      have houtlt : ∀ x ∈ outBits, x < 2 := by
        have hlt := scrBitsGo_bits_lt poly mask (bitsOfByte b) st (bitsOfByte_lt_two b)
        rw [hsb] at hlt
        exact hlt
      have h1 : (scrBitsGo poly mask st outBits).1 = st2 := by
        rw [scrBitsGo_state_indep poly mask outBits (bitsOfByte b) st (by rw [houtlen]), hsb]
      have h2 : (scrBitsGo poly mask st outBits).2 = bitsOfByte b := by
        have h3 := scrBitsGo_inv poly mask (bitsOfByte b) st
        rw [hsb] at h3
        exact h3
      have hfirst : scrBitsGo poly mask st outBits = (st2, bitsOfByte b) := by
        rw [← h1, ← h2]
      have hbits : bitsOfByte (byteOfBits outBits) = outBits :=
        bitsOfByte_byteOfBits outBits houtlen8 houtlt
      have hbyte : byteOfBits (bitsOfByte b) = b :=
        byteOfBits_bitsOfByte b (hb b (by simp))
      simp only [scrBytesGo, hsb, hbits, hfirst, hbyte]
      rw [ih st2 (fun x hx => hb x (by simp [hx]))]

theorem scr_xor_inv (poly : Nat) (seed : Option Nat) (data : ByteL)
    (hb : ∀ b ∈ data, b < 256) :
    scr_xor (scr_xor data poly seed) poly seed = data := by
  by_cases hp : poly = 0
  · simp [scr_xor, hp]
  · simp only [scr_xor, if_neg hp]
    exact scrBytesGo_inv poly _ data _ hb

/-! ### Per-fragment round trips of the framing codecs -/

theorem mapMExcept_map_ok (f : a → Except Unit b) (g : b → a) (l : List b)
    (h : ∀ x ∈ l, f (g x) = .ok x) : mapMExcept f (l.map g) = .ok l := by
  induction l with
  | nil => rfl
  | cons x rest ih =>
      simp only [List.map_cons, mapMExcept]
      rw [h x (by simp), ih (fun y hy => h y (by simp [hy]))]
      rfl

theorem rposFrom_append (w I : ByteL) : rposFrom w (I ++ w) I.length = some I.length := by
  have hd : ((I ++ w).drop I.length).take w.length = w := by
    rw [List.drop_left, List.take_length]
  cases hI : I.length with
  | zero =>
      rw [hI] at hd
      unfold rposFrom
      rw [if_pos hd]
  | succ p =>
      rw [hI] at hd
      unfold rposFrom
      rw [if_pos hd]

theorem isPrefixOf_append (w x : ByteL) : w.isPrefixOf (w ++ x) = true := by
  induction w with
  | nil => simp [List.isPrefixOf]
  | cons a as ih => simp [List.isPrefixOf, ih]

theorem asmDecodeOne (w x : ByteL) :
    (if w.isPrefixOf (w ++ x) then Except.ok ((w ++ x).drop w.length)
     else (Except.error () : Except Unit ByteL)) = Except.ok x := by
  rw [if_pos (isPrefixOf_append w x), List.drop_left]

theorem postAsmDecodeOne (w x : ByteL) :
    (if (x ++ w).length < w.length then (Except.error () : Except Unit ByteL)
     else match rposFrom w (x ++ w) ((x ++ w).length - w.length) with
       | some pos => Except.ok ((x ++ w).take pos)
       | none => Except.error ()) = Except.ok x := by
  have hlen : (x ++ w).length - w.length = x.length := by
    simp only [List.length_append]; omega
  rw [if_neg (by simp only [List.length_append]; omega), hlen, rposFrom_append]
  show Except.ok ((x ++ w).take x.length) = Except.ok x
  rw [List.take_left]

theorem scrMapInv (poly : Nat) (seed : Option Nat) : ∀ (chunks : List ByteL),
    (∀ c ∈ chunks, ∀ x ∈ c, x < 256) →
    (chunks.map (fun c => scr_xor c poly seed)).map (fun c => scr_xor c poly seed) = chunks := by
  intro chunks
  induction chunks with
  | nil => intro _; rfl
  | cons c rest ih =>
      intro hb
      simp only [List.map_cons]
      rw [scr_xor_inv poly seed c (hb c (by simp)), ih (fun d hd x hx => hb d (by simp [hd]) x hx)]

/-- C2 (amended): the byte-preserving round trip holds for the pure
in-repository catalog codecs — identity (and deflate, which the factory
instantiates as `Identity`), chunk (positive size, nonempty input), repeat
(positive count), crc16, crc32, the scrambler (on byte-valued data), asm and
post-asm (with their sync word present, i.e. the matched case) — but NOT for
the `H` codec (see the counterexample): `H::try_decode` merely concatenates
fragments and does not strip the header bytes `H::encode` prepended. -/
theorem C2_roundtrip_amended (I : ByteL) (chunks : List ByteL) (w : ByteL)
    (size count poly : Nat) (seed : Option Nat)
    (hsize : 0 < size) (hcount : 0 < count) (hI : I ≠ [])
    (hbytes : ∀ c ∈ chunks, ∀ x ∈ c, x < 256) :
    Identity.tryDecode (Identity.encode chunks) = (chunks, 1) ∧
    CodecFactory.getEncoding .deflate = .identity ∧
    Chunk.tryDecode (Chunk.encode size [I]) = ([I], 1) ∧
    Repeat.tryDecode count (Repeat.encode count [I]) = ([I], 1) ∧
    Crc16.tryDecode (Crc16.encode chunks) = .ok (chunks, 1000) ∧
    Crc32.tryDecode (Crc32.encode chunks) = .ok (chunks, 1000) ∧
    Scrambler.tryDecode poly seed (Scrambler.encode poly seed chunks) = (chunks, 1) ∧
    Asm.tryDecode w (Asm.encode w chunks) = .ok (chunks, 1000) ∧
    PostAsm.tryDecode w (PostAsm.encode w chunks) = .ok (chunks, 1000) := by
  refine ⟨rfl, rfl, ?_, ?_, ?_, ?_, ?_, ?_, ?_⟩
  · unfold Chunk.tryDecode Chunk.encode
    simp only [List.foldr_cons, List.foldr_nil, List.append_nil]
    rw [if_neg (chunkSplit_ne_nil size hsize I hI), chunkSplit_join size hsize I]
  · unfold Repeat.tryDecode Repeat.encode
    simp only [List.foldr_cons, List.foldr_nil, List.append_nil]
    by_cases h1 : count = 1
    · subst h1
      rw [if_neg (by simp), List.replicate_one]
    · rw [if_pos ⟨by rw [List.length_replicate]; omega, hcount⟩,
        stepBy_replicate count hcount I]
  · unfold Crc16.tryDecode Crc16.encode
    rw [mapMExcept_map_ok _ _ chunks
      (fun x _ => crcTryDecodeOne_roundtrip crc16_ccitt 2 (fun _ => rfl) x)]
    rfl
  · unfold Crc32.tryDecode Crc32.encode
    rw [mapMExcept_map_ok _ _ chunks
      (fun x _ => crcTryDecodeOne_roundtrip crc32_std 4 (fun _ => rfl) x)]
    rfl
  · unfold Scrambler.tryDecode Scrambler.encode
    rw [scrMapInv poly seed chunks hbytes]
  · unfold Asm.tryDecode Asm.encode
    rw [mapMExcept_map_ok _ _ chunks (fun x _ => asmDecodeOne w x)]
    rfl
  · unfold PostAsm.tryDecode PostAsm.encode
    rw [mapMExcept_map_ok _ _ chunks (fun x _ => postAsmDecodeOne w x)]
    rfl

/-- Witness for C2 (amended) at concrete inputs. -/
theorem C2_roundtrip_amended_witness :
    0 < 3 ∧ 0 < 2 ∧ strB "hello" ≠ [] ∧
      (∀ c ∈ [strB "ab", strB "c"], ∀ x ∈ c, x < 256) ∧
    (Identity.tryDecode (Identity.encode [strB "ab", strB "c"]) = ([strB "ab", strB "c"], 1) ∧
     CodecFactory.getEncoding .deflate = .identity ∧
     Chunk.tryDecode (Chunk.encode 3 [strB "hello"]) = ([strB "hello"], 1) ∧
     Repeat.tryDecode 2 (Repeat.encode 2 [strB "hello"]) = ([strB "hello"], 1) ∧
     Crc16.tryDecode (Crc16.encode [strB "ab", strB "c"]) = .ok ([strB "ab", strB "c"], 1000) ∧
     Crc32.tryDecode (Crc32.encode [strB "ab", strB "c"]) = .ok ([strB "ab", strB "c"], 1000) ∧
     Scrambler.tryDecode 72 none (Scrambler.encode 72 none [strB "ab", strB "c"]) =
       ([strB "ab", strB "c"], 1) ∧
     Asm.tryDecode [26, 207] (Asm.encode [26, 207] [strB "ab", strB "c"]) =
       .ok ([strB "ab", strB "c"], 1000) ∧
     PostAsm.tryDecode [26, 207] (PostAsm.encode [26, 207] [strB "ab", strB "c"]) =
       .ok ([strB "ab", strB "c"], 1000)) :=
  ⟨by decide, by decide, by decide, by decide,
   C2_roundtrip_amended (strB "hello") [strB "ab", strB "c"] [26, 207] 3 2 72 none
     (by decide) (by decide) (by decide) (by decide)⟩

/-- C2 counterexample: the `H` codec is in the catalog and is not a lossy
sync-word framing, yet `decode (encode [I]) ≠ [I]`: `H::encode` prepends a
packed CBOR header to the fragment and `H::try_decode` only joins the
fragments back without stripping it. -/
theorem C2_counterexample :
    (H.encode [strB "ab"] {}).isOk = true ∧
    (H.encode [strB "ab"] {}).map (fun p => (H.tryDecode p.1).1) ≠ .ok [strB "ab"] := by
  exact ⟨by decide, by decide⟩

/-! ### The external-crate oracle

The bodies of the external crates (flate2, brotli, lzma-rs, reed-solomon,
raptorq and the LT implementation, together with the repository's thin
`rs_encode`/`rq_encode`/… wrappers in `src/codec.rs` whose behaviour no
claim examines) are not embedded; they are held abstract as an oracle
record, and theorems about code paths that reach them are quantified over
the oracle or take its relevant outputs as hypotheses. -/

structure Ext where
  gzipCompress : ByteL → Except Unit ByteL
  gzipDecompress : ByteL → Except Unit ByteL
  brotliCompress : ByteL → Except Unit ByteL
  brotliDecompress : ByteL → Except Unit ByteL
  lzmaCompress : ByteL → Except Unit ByteL
  lzmaDecompress : ByteL → Except Unit ByteL
  rsEncode : ByteL → Nat → Nat → Except Unit ByteL
  rsDecode : ByteL → Nat → Nat → Except Unit (ByteL × Nat)
  rqEncode : ByteL → Nat → Nat → Nat → Except Unit (List ByteL)
  rqDecode : List ByteL → Nat → Nat → Except Unit ByteL
  ltEncode : ByteL → Nat → Nat → Nat → Except Unit (List ByteL)
  ltDecode : List ByteL → Nat → Nat → Except Unit ByteL

/-- A degenerate oracle (every external call fails); concrete scenarios
that never reach an external arm are stated at this oracle. -/
def ext0 : Ext where
  gzipCompress := fun _ => .error ()
  gzipDecompress := fun _ => .error ()
  brotliCompress := fun _ => .error ()
  brotliDecompress := fun _ => .error ()
  lzmaCompress := fun _ => .error ()
  lzmaDecompress := fun _ => .error ()
  rsEncode := fun _ _ _ => .error ()
  rsDecode := fun _ _ _ => .error ()
  rqEncode := fun _ _ _ _ => .error ()
  rqDecode := fun _ _ _ => .error ()
  ltEncode := fun _ _ _ _ => .error ()
  ltDecode := fun _ _ _ => .error ()

/-! ### The PDU generator (`src/generator.rs`) -/

/-- `PDUGenerator` (`src/generator.rs`).  The `announcement_encoder`
sub-generator is stored by its encoding stack: the source rebuilds its
mutable state (`next_msg_id`) before every use, so the boxed struct carries
no information beyond the callsigns (shared with the parent) and the stack.
The `last_*_header_size` statistics fields are threaded through the
generation loop below but not surfaced (no claim reads
`last_header_stats`). -/
structure PDUGenerator where
  src_callsign : Option StrB := none
  dst_callsign : Option StrB := none
  max_payload_size : Option Nat := none
  encodings : List ContentEncoding := []
  announcement_encodings : Option (List ContentEncoding) := none
  next_msg_id : Nat := 0
deriving DecidableEq, Repr

/-- `PDUGenerator::resolve_encodings` (`src/generator.rs`): append `H` if
absent, then insert a synthetic `Chunk(max_payload_size)` immediately
before the `H` boundary when no explicit chunk precedes it and a cap was
given. -/
def PDUGenerator.resolveEncodings (g : PDUGenerator) : List ContentEncoding :=
  let encs := if g.encodings.any (fun e => e = .h) then g.encodings
              else g.encodings ++ [.h]
  let boundary_idx := (encs.findIdx? (fun e => e = .h)).getD 0
  let pre := encs.take boundary_idx
  let has_chunk := pre.any (fun e => match e with | .chunk _ => true | _ => false)
  match g.max_payload_size with
  | some limit =>
      if ¬has_chunk then encs.take boundary_idx ++ [.chunk limit] ++ encs.drop boundary_idx
      else encs
  | none => encs

/-- `PDUGenerator::apply_encodings` (`src/generator.rs`): thread one byte
string through the encoding stack; the RaptorQ/LT arms return their packet
list immediately (the source's early `return`).  The `f32` repair-count
formula of `RaptorQDynamicPercent` is modelled as the exact rational
ceiling (no claim depends on it). -/
def applyEncodingsGo (ext : Ext) : ByteL → List ContentEncoding → Except Unit (List ByteL)
  | current, [] => .ok [current]
  | current, e :: rest =>
    match e with
    | .h => applyEncodingsGo ext current rest
    | .identity => applyEncodingsGo ext current rest
    | .gzip => do applyEncodingsGo ext (← ext.gzipCompress current) rest
    | .brotli => do applyEncodingsGo ext (← ext.brotliCompress current) rest
    | .lzma => do applyEncodingsGo ext (← ext.lzmaCompress current) rest
    | .crc16 => applyEncodingsGo ext (current ++ crc16_ccitt current) rest
    | .crc32 => applyEncodingsGo ext (current ++ crc32_std current) rest
    | .reedSolomon n k => do applyEncodingsGo ext (← ext.rsEncode current n k) rest
    | .raptorQ len mtu rep => ext.rqEncode current len mtu rep
    | .raptorQDynamic mtu rep => ext.rqEncode current current.length mtu rep
    | .raptorQDynamicPercent mtu percent =>
        let repairs := max 1 ((current.length * percent + (100 * mtu - 1)) / (100 * mtu))
        ext.rqEncode current current.length mtu repairs
    | .ltCode len mtu rep => ext.ltEncode current len mtu rep
    | .ltDynamic mtu rep => ext.ltEncode current current.length mtu rep
    | .conv k rate => do applyEncodingsGo ext (← conv_encode current k rate) rest
    | .scrambler poly seed => applyEncodingsGo ext (scr_xor current poly seed) rest
    | .golay _ _ => applyEncodingsGo ext (golay_encode current) rest
    | _ => applyEncodingsGo ext current rest

/-- The `H` arm of `PDUGenerator::generate`: wrap every chunk in a fresh
header derived from the template (chunk-tracking fields only when fanning
out, media type removed from non-zero chunks), serialized with `pack`;
threads the next message id (`idx == 0` re-uses the data's original id and
bumps the counter past it) and the header-size statistics. -/
def hWrapGo (template : Header) (orig total : Nat) (encs : List ContentEncoding) :
    List ByteL → Nat → Nat → Nat × Nat × Nat →
    Except Unit (List ByteL × Nat × (Nat × Nat × Nat))
  | [], _, next, stats => .ok ([], next, stats)
  | c :: rest, idx, next, (mn, mx, tot) => do
      let msgnext : Nat × Nat :=
        if idx = 0 then (orig, if next = orig then next + 1 else next)
        else (next, next + 1)
      let header := if total > 1 then
          { template with total_chunks := some total, chunk_id := some idx,
                          original_message_id := some orig }
        else template
      let header := { header with message_id := some msgnext.1 }
      let header := if idx > 0 then header.setMediaType none else header
      let header := { header with content_encoding := some encs,
                                  payload_size := some c.length }
      let packed ← pack header c
      let h_size := packed.length - c.length
      let (out, next2, stats2) ← hWrapGo template orig total encs rest (idx + 1) msgnext.2
        (min mn h_size, max mx h_size, tot + h_size)
      .ok (packed :: out, next2, stats2)

/-- The indexed loop of `PDUGenerator::generate` over the resolved stack.
`done` holds the already-traversed prefix of `full_encs` (the source
iterates by index and may overwrite the current slot when concretizing a
dynamic FEC descriptor, which affects the `full_encs.clone()` stored in
headers built later); the current stack is `done ++ remaining`. -/
def genLoop (ext : Ext) (template : Header) (orig : Nat) :
    List ContentEncoding → List ContentEncoding → List ByteL → Nat →
    Nat × Nat × Nat →
    Except Unit (List ContentEncoding × List ByteL × Nat × (Nat × Nat × Nat))
  | done, [], chunks, next, stats => .ok (done, chunks, next, stats)
  | done, e :: rest, chunks, next, stats =>
      match e with
      | .h => do
          let (out, next2, stats2) ←
            hWrapGo template orig chunks.length (done ++ .h :: rest) chunks 0 next stats
          genLoop ext template orig (done ++ [ContentEncoding.h]) rest out next2 stats2
      | .chunk size =>
          genLoop ext template orig (done ++ [ContentEncoding.chunk size]) rest
            ((chunks.map (chunkSplit size)).join) next stats
      | .repeatN count =>
          genLoop ext template orig (done ++ [ContentEncoding.repeatN count]) rest
            ((chunks.map (List.replicate count)).join) next stats
      | other => do
          let res ← chunks.foldlM (fun (acc : List ByteL × ContentEncoding) c => do
              let actual := match other with
                | .raptorQDynamic mtu rep => ContentEncoding.raptorQ c.length mtu rep
                | .ltDynamic mtu rep => ContentEncoding.ltCode c.length mtu rep
                | o => o
              let transformed ← applyEncodingsGo ext c [actual]
              pure (acc.1 ++ transformed, actual)) (([] : List ByteL), other)
          genLoop ext template orig (done ++ [res.2]) rest res.1 next stats

/-- `PDUGenerator::generate` for a generator without announcement encoder
(also the body of the announcement sub-generation).  Returns the PDUs, the
final `next_msg_id` and the `(min, max, total)` header-size statistics. -/
def PDUGenerator.generateNoAnn (ext : Ext) (g : PDUGenerator) (data : ByteL)
    (media_type : Option MediaType) :
    Except Unit (List ByteL × Nat × (Nat × Nat × Nat)) := do
  let full_encs := g.resolveEncodings
  let data_orig_id := g.next_msg_id
  let template := Header.setMediaType
    { file_size := some data.length, src_callsign := g.src_callsign,
      dst_callsign := g.dst_callsign } media_type
  let (_, chunks, next2, (mn, mx, tot)) ←
    genLoop ext template data_orig_id [] full_encs [data] g.next_msg_id (2 ^ 64 - 1, 0, 0)
  .ok (chunks, next2, ((if mn = 2 ^ 64 - 1 then 0 else mn), mx, tot))

/-- `PDUGenerator::generate` (`src/generator.rs`): allocate the
announcement id when an announcement stack is present, run the encoding
loop on the data, then prepend the generated announcement PDUs (the body is
the bare `minicbor` serialization of a header holding the data's original
id and the final — possibly concretised — stack). -/
def PDUGenerator.generate (ext : Ext) (g : PDUGenerator) (data : ByteL)
    (media_type : Option MediaType) : Except Unit (List ByteL × PDUGenerator) := do
  let (ann_msg_id, nid0) :=
    match g.announcement_encodings with
    | some _ => (some g.next_msg_id, g.next_msg_id + 1)
    | none => (none, g.next_msg_id)
  let data_orig_id := nid0
  let template := Header.setMediaType
    { file_size := some data.length, src_callsign := g.src_callsign,
      dst_callsign := g.dst_callsign } media_type
  let (full_encs2, chunks, next2, _) ←
    genLoop ext template data_orig_id [] g.resolveEncodings [data] nid0 (2 ^ 64 - 1, 0, 0)
  match g.announcement_encodings, ann_msg_id with
  | some ann_encs, some aid => do
      let ann_gen : PDUGenerator :=
        { src_callsign := g.src_callsign, dst_callsign := g.dst_callsign,
          max_payload_size := none, encodings := ann_encs,
          announcement_encodings := none, next_msg_id := aid }
      let announcement_body := Header.setMediaType
        { message_id := some data_orig_id, content_encoding := some full_encs2 }
        template.mediaType
      let body_bytes := encodeHeader announcement_body
      let (ann_pdus, _, _) ← ann_gen.generateNoAnn ext body_bytes
        (some (.type (strB "application/vnd.hqfbp+cbor")))
      .ok (ann_pdus ++ chunks, { g with next_msg_id := next2 })
  | _, _ => .ok (chunks, { g with next_msg_id := next2 })

/-! ### The deframer (`src/deframer.rs`)

`HashMap`s are modelled as association lists with replace-on-insert
semantics (`listInsert` keeps keys unique, so `List.length` is the map's
size); the only iteration over map keys (Phase 2 of `receive_bytes`) runs
in insertion order.  A Rust `panic` (the `.unwrap()` on a missing message
id in `process_pdu`) is modelled by returning `none`. -/

def listGet [DecidableEq κ] (k : κ) : List (κ × α) → Option α
  | [] => none
  | (k2, v) :: rest => if k = k2 then some v else listGet k rest

def listInsert [DecidableEq κ] (k : κ) (v : α) : List (κ × α) → List (κ × α)
  | [] => [(k, v)]
  | (k2, v2) :: rest => if k = k2 then (k, v) :: rest else (k2, v2) :: listInsert k v rest

def listRemove [DecidableEq κ] (k : κ) : List (κ × α) → List (κ × α)
  | [] => []
  | (k2, v2) :: rest => if k = k2 then rest else (k2, v2) :: listRemove k rest

def sortNatInsert (x : Nat) : List Nat → List Nat
  | [] => [x]
  | y :: rest => if x ≤ y then x :: y :: rest else y :: sortNatInsert x rest

/-- Insertion sort (the `sorted_keys.sort()` of `complete_message`). -/
def sortNat : List Nat → List Nat
  | [] => []
  | x :: rest => sortNatInsert x (sortNat rest)

/-- `Event` (`src/deframer.rs`): `PDU`/`Message` events with their
`(header, payload)` payloads. -/
inductive Event where
  | pdu (header : Header) (payload : ByteL)
  | message (header : Header) (payload : ByteL)
deriving DecidableEq, Repr

/-- `Session` (`src/deframer.rs`): chunk map
`chunk_id -> (payload, quality)`, collected headers, expected total. -/
structure Session where
  chunks : List (Nat × (ByteL × Nat)) := []
  headers : List Header := []
  total_chunks : Nat := 0
deriving DecidableEq, Repr

/-- `Deframer` (`src/deframer.rs`): event queue, sessions keyed by
`(Src-Callsign, Original-Message-Id or Message-Id)`, the announcement
table, and the `not_yet_decoded` holding buffer. -/
structure DeframerState where
  events : List Event := []
  sessions : List ((Option StrB × Nat) × Session) := []
  announcements : List ((Option StrB × Nat) × List ContentEncoding) := []
  not_yet_decoded : List ByteL := []
deriving DecidableEq, Repr

/-- `split_encs` (`src/deframer.rs`): split a stack at the first `H`. -/
def splitEncs (encs : List ContentEncoding) :
    List ContentEncoding × List ContentEncoding × Bool :=
  match encs.findIdx? (fun e => e = .h) with
  | some pos => (encs.take pos, encs.drop (pos + 1), true)
  | none => (encs, [], false)

/-- The `Chunk | Repeat | RaptorQ | ReedSolomon` session-level test used
for `lsi` / `has_packet_enc`. -/
def isSplitting : ContentEncoding → Bool
  | .chunk _ | .repeatN _ | .raptorQ _ _ _ | .reedSolomon _ _ => true
  | _ => false

/-- Last splitting index (`lsi`); the source's `-1` sentinel is `none`. -/
def lastSplitIdx (pre : List ContentEncoding) : Option Nat :=
  pre.enum.foldl (fun acc p => if isSplitting p.2 then some p.1 else acc) none

def joinBytes (l : List ByteL) : ByteL := l.foldr (fun b acc => b ++ acc) []

/-- One arm of `Deframer::apply_decodings` (`src/deframer.rs`).  The
source's `match` has no arms for `RaptorQDynamicPercent`, `LT`,
`LTDynamic`, `Golay`, `Asm`, `PostAsm` or `Ax25` (and its `Scrambler` arm
binds the two-field descriptor under a single name, feeding `scr_xor` the
descriptor's parameters); the missing arms are modelled as no-ops. -/
def applyDecodingsStep (ext : Ext) :
    ByteL × Nat → ContentEncoding → Except Unit (ByteL × Nat)
  | (data, q), e =>
    match e with
    | .h => .ok (data, q)
    | .identity => .ok (data, q)
    | .gzip => (ext.gzipDecompress data).map (fun d => (d, q))
    | .brotli => (ext.brotliDecompress data).map (fun d => (d, q))
    | .lzma => (ext.lzmaDecompress data).map (fun d => (d, q))
    | .crc32 =>
        if data.length < 4 then .error ()
        else
          let payload := data.take (data.length - 4)
          let expected := data.drop (data.length - 4)
          if crc32_std payload ≠ expected then .error ()
          else .ok (payload, q + 1000)
    | .crc16 =>
        if data.length < 2 then .error ()
        else
          let payload := data.take (data.length - 2)
          let expected := data.drop (data.length - 2)
          if crc16_ccitt payload ≠ expected then .error ()
          else .ok (payload, q + 1000)
    | .reedSolomon n k => do
        let (d2, corrected) ← ext.rsDecode data n k
        .ok (d2, q + (((n - k) / 2) * (d2.length / k) - corrected))
    | .repeatN _ => .ok (data, q)
    | .conv kv rate => do
        let (d2, metric) ← conv_decode data kv rate
        .ok (d2, q + (d2.length * 8 - metric))
    | .scrambler poly seed => .ok (scr_xor data poly seed, q)
    | .raptorQ len mtu _ => do
        let d ← ext.rqDecode [data] len mtu
        .ok (d, q + 10)
    | .raptorQDynamic mtu _ => do
        let d ← ext.rqDecode [data] data.length mtu
        .ok (d, q + 10)
    | .chunk _ => .ok (data, q)
    | _ => .ok (data, q)

/-- `Deframer::apply_decodings` (`src/deframer.rs`): fold the arms over the
stack in reverse order (the unused `header` / `already_unpacked` parameters
of the source are omitted). -/
def applyDecodings (ext : Ext) (data : ByteL) (encodings : List ContentEncoding) :
    Except Unit (ByteL × Nat) :=
  encodings.reverse.foldlM (applyDecodingsStep ext) (data, 0)

/-- One arm of `Deframer::apply_decodings_multi` (`src/deframer.rs`). -/
def applyDecodingsMultiStep (ext : Ext) :
    List ByteL × Nat → ContentEncoding → Except Unit (List ByteL × Nat)
  | (current, quality), enc =>
    match enc with
    | .h => .ok ([joinBytes current], quality)
    | .chunk _ => .ok ([joinBytes current], quality)
    | .identity => .ok (current, quality)
    | .repeatN count =>
        .ok (if current.length > 1 then stepBy count current else current, quality)
    | .raptorQ len mtu _ => do
        let r ← ext.rqDecode current len mtu
        .ok ([r], quality + 10)
    | .raptorQDynamic mtu _ => do
        let r ← ext.rqDecode current ((current.map List.length).foldr (· + ·) 0) mtu
        .ok ([r], quality + 10)
    | other =>
        if current.length = 1 then do
          let (d, q) ← applyDecodings ext (current.headD []) [other]
          .ok ([d], quality + q)
        else
          let folded := current.foldl (fun (acc : List ByteL × Nat) b =>
            match applyDecodings ext b [other] with
            | .ok (d, q) => (acc.1 ++ [d], acc.2 + q)
            | .error _ => acc) ([], 0)
          .ok (folded.1, quality + folded.2)

/-- `Deframer::apply_decodings_multi` (`src/deframer.rs`): reverse fold,
then join; empty output is an error. -/
def applyDecodingsMulti (ext : Ext) (input : List ByteL)
    (encs : List ContentEncoding) : Except Unit (ByteL × Nat) := do
  let (current, quality) ← encs.reverse.foldlM (applyDecodingsMultiStep ext) (input, 0)
  let final := joinBytes current
  if final = [] then .error () else .ok (final, quality)

/-- `Deframer::apply_pdu_level_decodings` (`src/deframer.rs`): truncate to
`Payload-Size`, then apply only the pre-boundary encodings AFTER the last
splitting one (everything at or before it is session-level); under implicit
fragmentation with no splitting encoding, the whole pre list is treated as
session-level. -/
def applyPduLevelDecodings (ext : Ext) (header : Header) (payload : ByteL) :
    Except Unit (ByteL × Nat) :=
  let ce := header.content_encoding.getD []
  let pre := (splitEncs ce).1
  let current_payload :=
    match header.payload_size with
    | some size => if payload.length > size then payload.take size else payload
    | none => payload
  let is_fragmented := header.total_chunks.getD 1 > 1 ∨ header.chunk_id.getD 0 > 0
  let lsi := lastSplitIdx pre
  let lsi := if is_fragmented ∧ lsi = none ∧ pre ≠ [] then some pre.length else lsi
  let to_apply :=
    match lsi with
    | some i => if i + 1 ≥ pre.length then [] else pre.drop (i + 1)
    | none => pre
  if to_apply ≠ [] then applyDecodings ext current_payload to_apply.reverse
  else .ok (current_payload, 0)

/-- `Deframer::strip_post_h_encodings` (`src/deframer.rs`): keep only the
stack prefix strictly before the first `H` (`None` when it is empty). -/
def stripPostH (h : Header) : Header :=
  match h.content_encoding with
  | some ce =>
      match ce.findIdx? (fun e => e = .h) with
      | some pos =>
          let pre := ce.take pos
          if pre = [] then { h with content_encoding := none }
          else { h with content_encoding := some pre }
      | none => h
  | none => h

/-- `Deframer::handle_announcement` (`src/deframer.rs`): decode the payload
as a bare CBOR header and record `(src, inner Message-Id) → inner stack`;
malformed or incomplete announcements are silently dropped.  No event is
emitted. -/
def handleAnnouncement (st : DeframerState) (src : Option StrB) (payload : ByteL) :
    DeframerState :=
  match decodeHeader payload with
  | .ok (h, _) =>
      match h.message_id, h.content_encoding with
      | some mid, some ce =>
          { st with announcements := listInsert (src, mid) ce st.announcements }
      | _, _ => st
  | .error _ => st

/-- `Session::header_from_first` (`src/deframer.rs`). -/
def Session.headerFromFirst (s : Session) : Header :=
  match s.headers with
  | [] => {}
  | h :: _ => h

/-- The chunk-insertion step of `Deframer::process_pdu` (lines 382–386):
store `(chunk_id, payload, quality)` iff no entry exists or the new quality
is strictly greater, appending the header alongside. -/
def sessionInsert (session : Session) (chunk_id : Nat) (payload : ByteL) (q : Nat)
    (header : Header) : Session :=
  match listGet chunk_id session.chunks with
  | none =>
      { session with chunks := listInsert chunk_id (payload, q) session.chunks,
                     headers := session.headers ++ [header] }
  | some existing =>
      if q > existing.2 then
        { session with chunks := listInsert chunk_id (payload, q) session.chunks,
                       headers := session.headers ++ [header] }
      else session

/-- The early-completion scan of `Deframer::process_pdu`: the first
`RaptorQ(len, mtu, _)` in a recorded header's pre-boundary stack gives the
threshold `⌈len/mtu⌉`.  Only RaptorQ is consulted. -/
def firstRqKHeader (h : Header) : Option Nat :=
  match h.content_encoding with
  | none => none
  | some ce =>
      (splitEncs ce).1.findSome? (fun e =>
        match e with
        | .raptorQ len mtu _ => some ((len + mtu - 1) / mtu)
        | _ => none)

def firstRqK : List Header → Option Nat
  | [] => none
  | h :: rest =>
      match firstRqKHeader h with
      | some k => some k
      | none => firstRqK rest

/-- The completion test of `Deframer::process_pdu`: all `Total-Chunks`
chunks received, or the RaptorQ early threshold reached. -/
def sessionCompleted (session : Session) : Bool :=
  if session.chunks.length = session.total_chunks then true
  else
    match firstRqK session.headers with
    | some k => decide (session.chunks.length ≥ k)
    | none => false

/-- `Deframer::complete_message` (`src/deframer.rs`): remove the session,
merge its headers IGNORING merge errors (`let _ = merged.merge(h)` keeps
the partially merged header), strip chunk tracking, reassemble the sorted
segments through the retained session-level stack, try nested unpack,
truncate to `File-Size`, strip the pre-boundary stack from the final
header, and emit the Message event (clearing the holding buffer). -/
def completeMessage (ext : Ext) (st : DeframerState) (key : Option StrB × Nat) :
    DeframerState :=
  match listGet key st.sessions with
  | none => st
  | some session =>
    let st := { st with sessions := listRemove key st.sessions }
    let merged := (session.headers.drop 1).foldl (fun m h => (Header.merge m h).1)
      session.headerFromFirst
    let merged := merged.stripChunking
    let sorted_keys := sortNat (session.chunks.map (·.1))
    let segments := sorted_keys.filterMap (fun k => (listGet k session.chunks).map (·.1))
    let ce_list := merged.content_encoding.getD []
    let (pre, _, _) := splitEncs ce_list
    let lsi := lastSplitIdx pre
    let has_packet_enc := pre.any isSplitting
    let pre_fixed :=
      if ¬has_packet_enc ∧ segments ≠ [] then
        let is_frag := merged.total_chunks.getD 1 > 1 ∨ merged.chunk_id.getD 0 > 0
        if ¬is_frag ∧ segments.length = 1 then []
        else pre ++ [ContentEncoding.chunk 0]
      else
        match lsi with
        | some i => if i < pre.length then pre.take (i + 1) else pre
        | none =>
          let is_frag := merged.total_chunks.getD 1 > 1 ∨ merged.chunk_id.getD 0 > 0
          if ¬is_frag ∧ segments.length = 1 then [] else pre
    match applyDecodingsMulti ext segments pre_fixed with
    | .error _ => st
    | .ok (data0, _) =>
      let md : Header × ByteL :=
        match unpack data0 with
        | .ok (h_inner, p_inner) =>
            if h_inner.message_id.isSome then
              match applyDecodings ext p_inner
                  (splitEncs (h_inner.content_encoding.getD [])).1 with
              | .ok (p2, _) => (h_inner, p2)
              | .error _ => (merged, data0)
            else (merged, data0)
        | .error _ => (merged, data0)
      let merged := md.1
      let data := md.2
      let data :=
        match merged.file_size with
        | some size => if data.length > size then data.take size else data
        | none => data
      let merged :=
        match merged.content_encoding with
        | some ce =>
            let new_ce :=
              (match ce.findIdx? (fun e => e = ContentEncoding.h) with
               | some pos => ce.drop (pos + 1)
               | none => ([] : List ContentEncoding)).filter
                 (fun e => ¬(e = ContentEncoding.h))
            if new_ce = [] then { merged with content_encoding := none }
            else { merged with content_encoding := some new_ce }
        | none => merged
      { st with events := st.events ++ [Event.message merged data], not_yet_decoded := [] }

/-- `Deframer::process_pdu` (`src/deframer.rs`): announcements are routed
to `handle_announcement` WITHOUT emitting any event; other PDUs emit a PDU
event, are stored in their session (quality-gated), and completion triggers
`complete_message`.  `none` models the source's panic on a PDU with
neither `Original-Message-Id` nor `Message-Id`. -/
def processPdu (ext : Ext) (st : DeframerState) (header : Header) (payload : ByteL)
    (pdu_quality : Nat) : Option DeframerState :=
  let is_ann := header.mediaType = some (.type (strB "application/vnd.hqfbp+cbor")) ∨
                header.mediaType = some (.format 60)
  if is_ann then
    let a_payload :=
      match header.content_encoding with
      | some ce =>
          let (pre_ann, _, has_h_ann) := splitEncs ce
          if has_h_ann then
            match applyDecodings ext payload pre_ann with
            | .ok (p2, _) => p2
            | .error _ => payload
          else payload
      | none => payload
    some (handleAnnouncement st header.src_callsign a_payload)
  else
    let st := { st with events := st.events ++ [Event.pdu header payload] }
    match header.original_message_id.or header.message_id with
    | none => none
    | some orig_id =>
      let session_key := (header.src_callsign, orig_id)
      let session := (listGet session_key st.sessions).getD
        { chunks := [], headers := [], total_chunks := header.total_chunks.getD 1 }
      let session := sessionInsert session (header.chunk_id.getD 0) payload pdu_quality header
      let st := { st with sessions := listInsert session_key session st.sessions }
      if sessionCompleted session then some (completeMessage ext st session_key)
      else some st

/-- Phase 2 of `Deframer::receive_bytes`: for each known announcement key,
try per-PDU recovery with that stack (`continue` on success), else — when
the post stack has a combiner — group recovery over the holding buffer;
group success, or any earlier success, ends the loop.  Returns the state
and the `reclaimed_any` flag. -/
def phase2Go (ext : Ext) (b : ByteL) :
    List (Option StrB × Nat) → DeframerState → Bool → Option (DeframerState × Bool)
  | [], st, recl => some (st, recl)
  | key :: rest, st, recl =>
      match listGet key st.announcements with
      | none => phase2Go ext b rest st recl
      | some ann_encs =>
        let post := (splitEncs ann_encs).2.1
        let single : Option (Option DeframerState) :=
          match applyDecodingsMulti ext [b] post with
          | .error _ => none
          | .ok (clean_pdu, q) =>
            match unpack clean_pdu with
            | .error _ => none
            | .ok (h2, p2) =>
              let h2 := stripPostH h2
              match applyPduLevelDecodings ext h2 p2 with
              | .error _ => none
              | .ok (p3, q_gain) =>
                let session_key :=
                  (h2.src_callsign, (h2.original_message_id.or h2.message_id).getD 0)
                let chunk_id := h2.chunk_id.getD 0
                let new_quality := q + q_gain
                let already_had_better :=
                  match listGet session_key st.sessions with
                  | some s =>
                      match listGet chunk_id s.chunks with
                      | some ex => decide (ex.2 ≥ new_quality)
                      | none => false
                  | none => false
                if already_had_better then none
                else some (processPdu ext st h2 p3 new_quality)
        match single with
        | some none => none
        | some (some st2) => phase2Go ext b rest st2 true
        | none =>
          let has_combiner := post.any (fun e =>
            match e with
            | .raptorQ _ _ _ | .raptorQDynamic _ _ | .chunk _ | .repeatN _ | .h => true
            | _ => false)
          if ¬has_combiner then phase2Go ext b rest st recl
          else
            match applyDecodingsMulti ext (st.not_yet_decoded ++ [b]) post with
            | .error _ => if recl then some (st, recl) else phase2Go ext b rest st recl
            | .ok (clean_pdu, q) =>
              match unpack clean_pdu with
              | .error _ => if recl then some (st, recl) else phase2Go ext b rest st recl
              | .ok (h2, p2) =>
                let h2 := stripPostH h2
                match applyPduLevelDecodings ext h2 p2 with
                | .error _ => if recl then some (st, recl) else phase2Go ext b rest st recl
                | .ok (p3, q_gain) =>
                  let session_key :=
                    (h2.src_callsign, (h2.original_message_id.or h2.message_id).getD 0)
                  let chunk_id := h2.chunk_id.getD 0
                  let new_quality := q + q_gain
                  let already_had_better :=
                    match listGet session_key st.sessions with
                    | some s =>
                        match listGet chunk_id s.chunks with
                        | some ex => decide (ex.2 ≥ new_quality)
                        | none => false
                    | none => false
                  match processPdu ext st h2 p3 new_quality with
                  | none => none
                  | some st2 =>
                      some ((if already_had_better then st2
                        else { st2 with not_yet_decoded := [] }), true)

/-- `Deframer::receive_bytes` (`src/deframer.rs`): Phase 1 (peek-unpack,
choose the announced or carried stack, PDU-level decode), Phase 2
(heuristic recovery over announcement keys) with the holding-buffer push on
total failure, Phase 3 via `process_pdu`. -/
def receiveBytes (ext : Ext) (st : DeframerState) (b : ByteL) : Option DeframerState :=
  let phase1 : Option (Header × ByteL × Nat) :=
    match unpack b with
    | .error _ => none
    | .ok (h_peek, p_peek) =>
      let target_id := h_peek.original_message_id.or h_peek.message_id
      let ce_list :=
        match target_id with
        | some mid =>
            (listGet (h_peek.src_callsign, mid) st.announcements).or h_peek.content_encoding
        | none => h_peek.content_encoding
      match ce_list with
      | none => some (h_peek, p_peek, 0)
      | some ce =>
        match applyDecodings ext b (splitEncs ce).2.1 with
        | .error _ => none
        | .ok (clean_pdu, q) =>
          match unpack clean_pdu with
          | .error _ => none
          | .ok (h2, p2) =>
            let h2 := stripPostH h2
            match applyPduLevelDecodings ext h2 p2 with
            | .error _ => none
            | .ok (p3, q_gain) => some (h2, p3, q + q_gain)
  match phase1 with
  | some (header, payload, q) => processPdu ext st header payload q
  | none =>
      match phase2Go ext b (st.announcements.map (·.1)) st false with
      | none => none
      | some (st2, reclaimed) =>
          some (if reclaimed then st2
                else { st2 with not_yet_decoded := st2.not_yet_decoded ++ [b] })

/-- C10: the Deflate content-encoding is behaviorally Identity throughout:
the codec factory instantiates the `Identity` codec for it, the generator's
encoding pass (`apply_encodings`) leaves a fragment unchanged when applying
it, the deframer's decoding pass treats it as a no-op, and the Identity
codec itself is a byte-preserving round trip. -/
theorem C10_deflate_identity (ext : Ext) (data : ByteL) (chunks : List ByteL) :
    CodecFactory.getEncoding .deflate = .identity ∧
    applyEncodingsGo ext data [.deflate] = .ok [data] ∧
    applyDecodings ext data [.deflate] = .ok (data, 0) ∧
    Identity.tryDecode (Identity.encode chunks) = (chunks, 1) :=
  ⟨rfl, rfl, rfl, rfl⟩

/-- Shape of an event: `(is_message, payload)`. -/
def eventShape : Event → Bool × ByteL
  | .pdu _ p => (false, p)
  | .message _ p => (true, p)

/-- The scenario S3 generator: stack `[H, CRC32]`, announcement stack
`[H]`, source callsign `F4JXQ`, first message id 1. -/
def s3Gen : PDUGenerator :=
  { src_callsign := some (strB "F4JXQ"), encodings := [.h, .crc32],
    announcement_encodings := some [.h], next_msg_id := 1 }

/-- The S3 run: generate the two PDUs (announcement + data), feed them in
order, and report (PDU count, events after the announcement, announcement
table after the announcement, event shapes after the data PDU). -/
def s3Run : Option (Nat × List Event ×
    List ((Option StrB × Nat) × List ContentEncoding) × List (Bool × ByteL)) :=
  match PDUGenerator.generate ext0 s3Gen (strB "Sensitive Data") none with
  | .error _ => none
  | .ok (pdus, _) =>
    match receiveBytes ext0 {} (pdus.getD 0 []) with
    | none => none
    | some st1 =>
      match receiveBytes ext0 st1 (pdus.getD 1 []) with
      | none => none
      | some st2 => some (pdus.length, st1.events, st1.announcements,
          st2.events.map eventShape)

/-- C3 (amended): an announcement PDU emits NO event at all — it only
populates the announcement table — so the S3 event order is: nothing after
the announcement, then the data PDU event, then the Message event, both
carrying `"Sensitive Data"`. -/
theorem C3_no_announcement_event_amended :
    s3Run = some (2, [], [((some (strB "F4JXQ"), 2), [.h, .crc32])],
      [(false, strB "Sensitive Data"), (true, strB "Sensitive Data")]) := by
  rfl

/-- C3 counterexample: the deframer recovers a (header, payload) pair from
the S3 announcement PDU (its unpack succeeds) and updates the announcement
table, yet emits zero events — contradicting the claimed announcement PDU
event. -/
theorem C3_counterexample :
    (match PDUGenerator.generate ext0 s3Gen (strB "Sensitive Data") none with
     | .error _ => none
     | .ok (pdus, _) =>
       match receiveBytes ext0 { } (pdus.getD 0 []) with
       | none => none
       | some st1 =>
           some ((unpack (pdus.getD 0 [])).isOk, st1.events.length,
             st1.announcements.length))
    = some (true, 0, 1) := by
  decide

/-- A two-fragment session whose fragments disagree on `File-Size`
(4 vs 99). -/
def c4H0 : Header :=
  { message_id := some 1, src_callsign := some (strB "A"),
    content_encoding := some [.h], file_size := some 4, chunk_id := some 0,
    original_message_id := some 1, total_chunks := some 2 }

def c4H1 : Header :=
  { message_id := some 2, src_callsign := some (strB "A"),
    content_encoding := some [.h], file_size := some 99, chunk_id := some 1,
    original_message_id := some 1, total_chunks := some 2 }

def c4Run : Option (List (Bool × ByteL)) :=
  match pack c4H0 (strB "ab"), pack c4H1 (strB "cd") with
  | .ok p0, .ok p1 =>
      match receiveBytes ext0 {} p0 with
      | some st1 =>
          match receiveBytes ext0 st1 p1 with
          | some st2 => some (st2.events.map eventShape)
          | none => none
      | none => none
  | _, _ => none

/-- C4 (amended): `Header::merge` does flag a File-Size disagreement as an
error (returning the partially merged header that keeps the first
fragment's value), but `complete_message` ignores the merge result
(`let _ = merged.merge(h)`): the session is not aborted, and the Message
event is still emitted — shown by the concrete two-fragment run whose
fragments disagree on File-Size. -/
theorem C4_merge_ignored_amended (h1 h2 : Header) (a b : Nat) (src' : Option StrB)
    (repr' : Option ByteL)
    (hfs1 : h1.file_size = some a) (hfs2 : h2.file_size = some b) (hne : a ≠ b)
    (hsrc : mergeStrict h1.src_callsign h2.src_callsign = some src')
    (hrepr : mergeStrict h1.repr_digest h2.repr_digest = some repr') :
    (Header.merge h1 h2).2 = false ∧ (Header.merge h1 h2).1.file_size = some a ∧
    c4Run = some [(false, strB "ab"), (false, strB "cd"), (true, strB "abcd")] := by
  have key : (Header.merge h1 h2).2 = false ∧ (Header.merge h1 h2).1.file_size = some a := by
    unfold Header.merge
    rw [hsrc]
    dsimp only
    rw [hrepr]
    dsimp only
    rw [hfs1, hfs2]
    unfold mergeStrict
    dsimp only
    rw [if_pos hne]
    dsimp only
    exact ⟨rfl, rfl⟩
  exact ⟨key.1, key.2, by decide⟩

/-- Witness for C4 (amended). -/
theorem C4_merge_ignored_amended_witness :
    ({ file_size := some 4 } : Header).file_size = some 4 ∧
    ({ file_size := some 99 } : Header).file_size = some 99 ∧ (4 : Nat) ≠ 99 ∧
    mergeStrict ({ file_size := some 4 } : Header).src_callsign
      ({ file_size := some 99 } : Header).src_callsign = some none ∧
    mergeStrict ({ file_size := some 4 } : Header).repr_digest
      ({ file_size := some 99 } : Header).repr_digest = some none ∧
    ((Header.merge { file_size := some 4 } { file_size := some 99 }).2 = false ∧
     (Header.merge { file_size := some 4 } { file_size := some 99 }).1.file_size = some 4 ∧
     c4Run = some [(false, strB "ab"), (false, strB "cd"), (true, strB "abcd")]) :=
  ⟨rfl, rfl, by decide, rfl, rfl,
   C4_merge_ignored_amended { file_size := some 4 } { file_size := some 99 } 4 99 none none
     rfl rfl (by decide) rfl rfl⟩

/-- C4 counterexample: the fragments disagree on File-Size, yet the session
completes and the Message event (payload `"abcd"`) is emitted. -/
theorem C4_counterexample :
    c4H0.file_size = some 4 ∧ c4H1.file_size = some 99 ∧
    c4Run = some [(false, strB "ab"), (false, strB "cd"), (true, strB "abcd")] := by
  exact ⟨rfl, rfl, by decide⟩

/-- Feed the same raw packet `n` times. -/
def feedN (ext : Ext) (b : ByteL) : Nat → DeframerState → Option DeframerState
  | 0, st => some st
  | n + 1, st =>
      match receiveBytes ext st b with
      | some st2 => feedN ext b n st2
      | none => none

/-- C5 (amended): the `not_yet_decoded` holding buffer is unbounded: every
packet that fails Phase 1 while the announcement table is empty is appended
to the buffer, with no cap and no eviction. -/
theorem C5_unbounded_amended (ext : Ext) (st : DeframerState) (b : ByteL)
    (hann : st.announcements = []) (hfail : unpack b = .error ()) :
    receiveBytes ext st b =
      some { st with not_yet_decoded := st.not_yet_decoded ++ [b] } := by
  simp only [receiveBytes, hfail, hann, List.map_nil, phase2Go]
  rfl

/-- Witness for C5 (amended). -/
theorem C5_unbounded_amended_witness :
    ({} : DeframerState).announcements = [] ∧ unpack [255] = .error () ∧
    receiveBytes ext0 {} [255] = some { not_yet_decoded := [[255]] } :=
  ⟨rfl, by decide, C5_unbounded_amended ext0 {} [255] rfl (by decide)⟩

/-- C5 counterexample: after 101 unattributable packets the buffer holds
all 101 of them — beyond the claimed ~100 cap, and with the oldest packet
still present (no eviction). -/
theorem C5_counterexample :
    feedN ext0 [255] 101 {} = some { not_yet_decoded := List.replicate 101 [255] } ∧
    ¬(List.replicate 101 ([255] : ByteL)).length ≤ 100 := by
  exact ⟨by decide, by decide⟩

/-- The RaptorQ early-completion scenario: an announcement maps
`(F4JXQ, 3)` to the stack `[rq(60, 30, 20), H]`; two data PDUs of a
10-chunk transfer then arrive. -/
def c7AnnH : Header :=
  { message_id := some 9, src_callsign := some (strB "F4JXQ"),
    content_type := some (strB "application/vnd.hqfbp+cbor"),
    content_encoding := some [.h] }

def c7Body : ByteL :=
  encodeHeader
    { message_id := some 3,
      content_encoding := some [ContentEncoding.raptorQ 60 30 20, .h] }

def c7H (mid cid : Nat) : Header :=
  { message_id := some mid, src_callsign := some (strB "F4JXQ"),
    content_encoding := some [ContentEncoding.raptorQ 60 30 20, .h],
    file_size := some 6, chunk_id := some cid, original_message_id := some 3,
    total_chunks := some 10 }

/-- An oracle whose RaptorQ decoder recovers `"Hello!"` from exactly the
two scenario packets. -/
def extW : Ext :=
  { ext0 with rqDecode := fun packets len mtu =>
      if packets = [strB "AB", strB "CD"] ∧ len = 60 ∧ mtu = 30
      then .ok (strB "Hello!") else .error () }

def c7Run : Option (List (Bool × ByteL) × Nat) :=
  match pack c7AnnH c7Body, pack (c7H 4 0) (strB "AB"), pack (c7H 5 1) (strB "CD") with
  | .ok a, .ok p0, .ok p1 =>
      match receiveBytes extW {} a with
      | some st1 =>
          match receiveBytes extW st1 p0 with
          | some st2 =>
              match receiveBytes extW st2 p1 with
              | some st3 => some (st3.events.map eventShape, st3.sessions.length)
              | none => none
          | none => none
      | none => none
  | _, _, _ => none

/-- The same two-PDU prefix with an LT stack instead: `[lt(60, 30, 5), H]`,
4 expected chunks. -/
def c7LtH (mid cid : Nat) : Header :=
  { message_id := some mid, src_callsign := some (strB "F4JXQ"),
    content_encoding := some [ContentEncoding.ltCode 60 30 5, .h],
    file_size := some 60, chunk_id := some cid, original_message_id := some 3,
    total_chunks := some 4 }

def c7LtRun : Option (List (Bool × ByteL) × Nat) :=
  match pack (c7LtH 4 0) (strB "AB"), pack (c7LtH 5 1) (strB "CD") with
  | .ok p0, .ok p1 =>
      match receiveBytes ext0 {} p0 with
      | some st1 =>
          match receiveBytes ext0 st1 p1 with
          | some st2 => some (st2.events.map eventShape, st2.sessions.length)
          | none => none
      | none => none
  | _, _ => none

/-- C7 (amended): early completion is triggered ONLY by a `RaptorQ(len,
mtu, _)` descriptor in a recorded header's pre-boundary stack (threshold
`⌈len/mtu⌉`); LT descriptors are not consulted.  With the RaptorQ stack
`[rq(60, 30, 20), H]` announced, the first `⌈60/30⌉ = 2` data PDUs of a
10-chunk transfer complete the session and emit the Message (here with an
oracle whose RaptorQ decoder recovers `"Hello!"` from those two packets);
the session is removed on completion. -/
theorem C7_early_rq_amended :
    (∀ l m r, firstRqKHeader
      { content_encoding := some [ContentEncoding.ltCode l m r, .h] } = none) ∧
    (∀ l m r, firstRqKHeader
      { content_encoding := some [ContentEncoding.raptorQ l m r, .h] } =
        some ((l + m - 1) / m)) ∧
    (c7H 4 0).total_chunks = some 10 ∧
    c7Run = some ([(false, strB "AB"), (false, strB "CD"), (true, strB "Hello!")], 0) := by
  refine ⟨fun l m r => rfl, fun l m r => rfl, rfl, by rfl⟩

/-- C7 counterexample: with the LT stack `[lt(60, 30, 5), H]` — an erasure
code with parameters (len, mtu) whose claimed threshold would be
`⌈60/30⌉ = 2` — two received chunks of a 4-chunk transfer do NOT complete
the session: only the two PDU events are emitted and the session stays
open. -/
theorem C7_counterexample :
    (c7LtH 4 0).total_chunks = some 4 ∧
    c7LtRun = some ([(false, strB "AB"), (false, strB "CD")], 1) := by
  exact ⟨rfl, by rfl⟩

theorem listGet_listInsert [DecidableEq κ] (k : κ) (v : α) :
    ∀ l : List (κ × α), listGet k (listInsert k v l) = some v := by
  intro l
  induction l with
  | nil => simp [listInsert, listGet]
  | cons p rest ih =>
      rcases p with ⟨k2, v2⟩
      by_cases h : k = k2
      · simp [listInsert, listGet, h]
      · simp [listInsert, listGet, h, ih]

/-- C8: when a PDU arrives for a `(session, Chunk-Id)` slot that already
holds a copy, the slot is replaced iff the new quality is strictly greater,
so the retained copy's quality is ≥ both the old and the new quality
(stated away from the completion path, which removes the session). -/
theorem C8_quality_monotone (ext : Ext) (st : DeframerState) (header : Header)
    (payload : ByteL) (q orig : Nat) (s : Session) (pOld : ByteL) (qOld : Nat)
    (hann : ¬(header.mediaType = some (.type (strB "application/vnd.hqfbp+cbor")) ∨
              header.mediaType = some (.format 60)))
    (horig : header.original_message_id.or header.message_id = some orig)
    (hsess : listGet (header.src_callsign, orig) st.sessions = some s)
    (hold : listGet (header.chunk_id.getD 0) s.chunks = some (pOld, qOld))
    (hnc : sessionCompleted
      (sessionInsert s (header.chunk_id.getD 0) payload q header) = false) :
    processPdu ext st header payload q =
      some { st with events := st.events ++ [Event.pdu header payload],
                     sessions := listInsert (header.src_callsign, orig)
                       (sessionInsert s (header.chunk_id.getD 0) payload q header)
                       st.sessions } ∧
    listGet (header.src_callsign, orig)
        (listInsert (header.src_callsign, orig)
          (sessionInsert s (header.chunk_id.getD 0) payload q header) st.sessions) =
      some (sessionInsert s (header.chunk_id.getD 0) payload q header) ∧
    listGet (header.chunk_id.getD 0)
        (sessionInsert s (header.chunk_id.getD 0) payload q header).chunks =
      some (if qOld < q then (payload, q) else (pOld, qOld)) ∧
    qOld ≤ (if qOld < q then (payload, q) else (pOld, qOld)).2 ∧
    q ≤ (if qOld < q then (payload, q) else (pOld, qOld)).2 := by
  refine ⟨?_, listGet_listInsert _ _ _, ?_, ?_, ?_⟩
  · simp only [processPdu]
    rw [if_neg hann, horig]
    dsimp only
    rw [hsess]
    rw [Option.getD_some]
    rw [hnc]
    rfl
  · unfold sessionInsert
    rw [hold]
    dsimp only
    by_cases hq : qOld < q
    · rw [if_pos hq, if_pos hq]
      dsimp only
      rw [listGet_listInsert]
    · rw [if_neg hq, if_neg hq]
      exact hold
  · split <;> dsimp only <;> omega
  · split <;> dsimp only <;> omega

def c8Hdr : Header :=
  { message_id := some 9, src_callsign := some (strB "A"),
    original_message_id := some 5, chunk_id := some 0, total_chunks := some 3 }

def c8S : Session :=
  { chunks := [(0, (strB "x", 3))], headers := [c8Hdr], total_chunks := 3 }

def c8St : DeframerState := { sessions := [((some (strB "A"), 5), c8S)] }

/-- Witness for C8 at a concrete session holding quality 3, receiving a
quality-7 copy of chunk 0. -/
theorem C8_quality_monotone_witness :
    (¬(c8Hdr.mediaType = some (.type (strB "application/vnd.hqfbp+cbor")) ∨
       c8Hdr.mediaType = some (.format 60))) ∧
    c8Hdr.original_message_id.or c8Hdr.message_id = some 5 ∧
    listGet (c8Hdr.src_callsign, 5) c8St.sessions = some c8S ∧
    listGet (c8Hdr.chunk_id.getD 0) c8S.chunks = some (strB "x", 3) ∧
    sessionCompleted (sessionInsert c8S (c8Hdr.chunk_id.getD 0) (strB "y") 7 c8Hdr) = false ∧
    (processPdu ext0 c8St c8Hdr (strB "y") 7 =
      some { c8St with events := c8St.events ++ [Event.pdu c8Hdr (strB "y")],
                       sessions := listInsert (c8Hdr.src_callsign, 5)
                         (sessionInsert c8S (c8Hdr.chunk_id.getD 0) (strB "y") 7 c8Hdr)
                         c8St.sessions } ∧
     listGet (c8Hdr.src_callsign, 5)
         (listInsert (c8Hdr.src_callsign, 5)
           (sessionInsert c8S (c8Hdr.chunk_id.getD 0) (strB "y") 7 c8Hdr) c8St.sessions) =
       some (sessionInsert c8S (c8Hdr.chunk_id.getD 0) (strB "y") 7 c8Hdr) ∧
     listGet (c8Hdr.chunk_id.getD 0)
         (sessionInsert c8S (c8Hdr.chunk_id.getD 0) (strB "y") 7 c8Hdr).chunks =
       some (if 3 < 7 then (strB "y", 7) else (strB "x", 3)) ∧
     3 ≤ (if 3 < 7 then (strB "y", 7) else (strB "x", 3)).2 ∧
     7 ≤ (if 3 < 7 then (strB "y", 7) else (strB "x", 3)).2) :=
  ⟨by decide, by decide, by decide, by decide, by decide,
   C8_quality_monotone ext0 c8St c8Hdr (strB "y") 7 5 c8S (strB "x") 3
     (by decide) (by decide) (by decide) (by decide) (by decide)⟩

/-! ### Claim C6: synthetic chunking in the generator -/

theorem chunkCountStep (m len : Nat) (hm : 0 < m) (hlen : 0 < len) :
    (len - m + m - 1) / m + 1 = (len + m - 1) / m := by
  by_cases hle : len ≤ m
  · have h1 : len - m = 0 := by omega
    rw [h1]
    have h2 : (0 + m - 1) / m = 0 := Nat.div_eq_of_lt (by omega)
    rw [h2]
    have h3 : len + m - 1 = (len - 1) + m := by omega
    rw [h3, Nat.add_div_right _ hm, Nat.div_eq_of_lt (by omega)]
  · have h1 : len - m + m - 1 = len - 1 := by omega
    have h2 : len + m - 1 = (len - 1) + m := by omega
    rw [h1, h2, Nat.add_div_right _ hm]

theorem chunkSplit_length (m : Nat) (hm : 0 < m) : ∀ I : ByteL,
    (chunkSplit m I).length = (I.length + m - 1) / m := by
  have main : ∀ (n : Nat) (I : ByteL), I.length = n →
      (chunkSplit m I).length = (I.length + m - 1) / m := by
    intro n
    induction n using Nat.strong_induction_on with
    | _ n ih =>
      intro I hn
      unfold chunkSplit
      by_cases hI : I = []
      · subst hI
        simp [Nat.div_eq_of_lt (show m - 1 < m by omega)]
      · have hlen : 0 < I.length := by
          cases I
          · exact absurd rfl hI
          · simp
        rw [if_neg hI, if_neg (by omega)]
        simp only [List.length_cons]
        rw [ih (I.drop m).length (by simp [List.length_drop]; omega) (I.drop m) rfl]
        rw [List.length_drop]
        exact chunkCountStep m I.length hm hlen
  intro I
  exact main I.length I rfl

theorem chunkSplit_mem_length (m : Nat) : ∀ (I c : ByteL),
    c ∈ chunkSplit m I → c.length ≤ m := by
  have main : ∀ (n : Nat) (I c : ByteL), I.length = n →
      c ∈ chunkSplit m I → c.length ≤ m := by
    intro n
    induction n using Nat.strong_induction_on with
    | _ n ih =>
      intro I c hn hc
      unfold chunkSplit at hc
      by_cases hI : I = []
      · simp [hI] at hc
      · by_cases hm : m = 0
        · simp [if_neg hI, hm] at hc
        · rw [if_neg hI, if_neg hm] at hc
          rcases List.mem_cons.mp hc with h | h
          · subst h
            simp [List.length_take]
          · have : I.length ≠ 0 := fun h0 => hI (List.eq_nil_of_length_eq_zero h0)
            exact ih (I.drop m).length (by simp [List.length_drop]; omega)
              (I.drop m) c rfl h
  intro I c
  exact main I.length I c rfl

/-- The header template `generate` builds for the C6 scenario (no media
type). -/
def c6Tmpl (src dst : Option StrB) (L : Nat) : Header :=
  { file_size := some L, src_callsign := src, dst_callsign := dst }

/-- The header `generate` packs onto the chunk with index `i` (length `pl`)
of an `L`-byte transfer split into `N > 1` chunks of size `m`, first
message id `id0`. -/
def c6Header (src dst : Option StrB) (m L N id0 i pl : Nat) : Header :=
  { message_id := some (id0 + i), src_callsign := src, dst_callsign := dst,
    content_encoding := some [ContentEncoding.chunk m, .h], file_size := some L,
    chunk_id := some i, original_message_id := some id0, total_chunks := some N,
    payload_size := some pl }

theorem normalizeEL_chunk_h (m : Nat) :
    normalizeELOpt (some [ContentEncoding.chunk m, .h]) = .ok (some [.h]) := rfl

theorem hWrapGo_spec (src dst : Option StrB) (L N id0 m : Nat) (hN1 : 1 < N) :
    ∀ (cs : List ByteL) (idx : Nat) (stats : Nat × Nat × Nat),
      ∃ stats2,
        hWrapGo (c6Tmpl src dst L) id0 N [ContentEncoding.chunk m, .h] cs idx
            (id0 + idx) stats =
          .ok ((cs.enumFrom idx).map (fun p =>
              encodeHeader (c6Header src dst m L N id0 p.1 p.2.length) ++ p.2),
            id0 + idx + cs.length, stats2) := by
  intro cs
  induction cs with
  | nil =>
      intro idx stats
      exact ⟨stats, by simp [hWrapGo, List.enumFrom]⟩
  | cons c rest ih =>
      intro idx stats
      rcases stats with ⟨mn, mx, tot⟩
      have hmsg : (if idx = 0 then
            (id0, if id0 + idx = id0 then id0 + idx + 1 else id0 + idx)
          else (id0 + idx, id0 + idx + 1)) = (id0 + idx, id0 + idx + 1) := by
        by_cases h0 : idx = 0
        · subst h0; simp
        · rw [if_neg h0]
      obtain ⟨stats2, ih2⟩ := ih (idx + 1)
        (min mn ((encodeHeader (c6Header src dst m L N id0 idx c.length) ++ c).length
           - c.length),
         max mx ((encodeHeader (c6Header src dst m L N id0 idx c.length) ++ c).length
           - c.length),
         tot + ((encodeHeader (c6Header src dst m L N id0 idx c.length) ++ c).length
           - c.length))
      refine ⟨stats2, ?_⟩
      simp only [hWrapGo, c6Tmpl, c6Header, Header.setMediaType, Header.mediaType,
        pack, packCanonHeader, hmsg, hN1, if_true, ite_self, Option.map,
        Bind.bind, Except.bind, List.enumFrom, List.map_cons] at ih2 ⊢
      rw [show id0 + idx + 1 = id0 + (idx + 1) from by omega]
      rw [if_neg (show ¬(some (id0 + idx) = (none : Option Nat)) from by simp)]
      dsimp only
      rw [ih2]
      dsimp only
      simp only [List.length_cons]
      refine congrArg Except.ok ?_
      rw [show id0 + (idx + 1) + rest.length = id0 + idx + (rest.length + 1) from by omega]

theorem c6_unpack (src dst : Option StrB) (m L N id0 i : Nat) (c : ByteL)
    (hsrc : ∀ s ∈ src, s.length < 2 ^ 64) (hdst : ∀ s ∈ dst, s.length < 2 ^ 64)
    (hL : L < 2 ^ 64) (hmid : id0 + i < 2 ^ 32) (hid0 : id0 < 2 ^ 32)
    (hi : i < 2 ^ 32) (hN : N < 2 ^ 32) (hc : c.length < 2 ^ 64) :
    unpack (encodeHeader (c6Header src dst m L N id0 i c.length) ++ c) =
      .ok ({ c6Header src dst m L N id0 i c.length with
             content_encoding := some [.h] }, c) := by
  have helWF : elWF [ContentEncoding.chunk m, ContentEncoding.h] := by
    constructor
    · intro e he
      simp at he
      rcases he with ⟨h1 | h1, h2⟩
      · subst h1
        simp [ContentEncoding.isChunk] at h2
      · subst h1
        decide
    · show (1 : Nat) < 2 ^ 64
      norm_num
  have hwf : headerWF (c6Header src dst m L N id0 i c.length) := by
    refine ⟨?_, ?_, ?_, ?_, ?_, ?_, ?_, ?_, ?_, ?_, ?_, ?_, ?_⟩ <;>
      simp [c6Header] <;> first
        | omega
        | exact hsrc
        | exact hdst
        | exact helWF
  unfold unpack
  rw [decodeHeader_encodeHeader _ c (some [.h]) hwf (normalizeEL_chunk_h m)]
  simp [c6Header, Bind.bind, Except.bind]

theorem mem_enumFrom_facts : ∀ (l : List α) (n : Nat) (p : Nat × α),
    p ∈ l.enumFrom n → n ≤ p.1 ∧ p.1 < n + l.length ∧ p.2 ∈ l := by
  intro l
  induction l with
  | nil => intro n p hp; simp [List.enumFrom] at hp
  | cons a t ih =>
      intro n p hp
      simp only [List.enumFrom, List.mem_cons] at hp
      rcases hp with rfl | hp
      · simp
      · obtain ⟨h1, h2, h3⟩ := ih (n + 1) p hp
        refine ⟨by omega, by simp only [List.length_cons]; omega, by simp [h3]⟩

/-- C6: for a generator whose stack has no explicit chunk before `H`
(here: the empty stack) and whose cap is `m`, `resolve_encodings` inserts a
synthetic `chunk(m)` immediately before `H`, and `generate` on an `L`-byte
payload with `L > m` emits exactly `⌈L/m⌉` PDUs — the packed chunks of the
payload — whose headers carry `Chunk-Id = i`, `Total-Chunks = ⌈L/m⌉`,
`Original-Message-Id = id0` and `Message-Id = id0 + i` (read back through
`unpack`; the wire normalization strips the chunk descriptor from the
carried stack, leaving `[h]`). -/
theorem C6_chunking (ext : Ext) (src dst : Option StrB) (m id0 : Nat) (data : ByteL)
    (hm : 0 < m) (hLm : m < data.length) (hL64 : data.length < 2 ^ 64)
    (hid : id0 + (data.length + m - 1) / m < 2 ^ 32)
    (hN32 : (data.length + m - 1) / m < 2 ^ 32)
    (hsrc : ∀ s ∈ src, s.length < 2 ^ 64) (hdst : ∀ s ∈ dst, s.length < 2 ^ 64) :
    PDUGenerator.resolveEncodings
      { src_callsign := src, dst_callsign := dst, max_payload_size := some m,
        encodings := [], next_msg_id := id0 } = [.chunk m, .h] ∧
    (∃ g2, PDUGenerator.generate ext
        { src_callsign := src, dst_callsign := dst, max_payload_size := some m,
          encodings := [], next_msg_id := id0 } data none =
      .ok ((chunkSplit m data).enum.map (fun p =>
        encodeHeader (c6Header src dst m data.length ((data.length + m - 1) / m) id0
          p.1 p.2.length) ++ p.2), g2)) ∧
    ((chunkSplit m data).enum.map (fun p =>
      encodeHeader (c6Header src dst m data.length ((data.length + m - 1) / m) id0
        p.1 p.2.length) ++ p.2)).length = (data.length + m - 1) / m ∧
    (∀ p ∈ (chunkSplit m data).enum,
      p.1 < (data.length + m - 1) / m ∧
      unpack (encodeHeader (c6Header src dst m data.length ((data.length + m - 1) / m)
          id0 p.1 p.2.length) ++ p.2) =
        .ok ({ c6Header src dst m data.length ((data.length + m - 1) / m) id0 p.1
               p.2.length with content_encoding := some [.h] }, p.2)) := by
  have hN2 : 2 ≤ (data.length + m - 1) / m :=
    (Nat.le_div_iff_mul_le hm).mpr (by omega)
  have hN1 : 1 < (data.length + m - 1) / m := hN2
  have hlenN : (chunkSplit m data).length = (data.length + m - 1) / m :=
    chunkSplit_length m hm data
  refine ⟨rfl, ?_, ?_, ?_⟩
  · obtain ⟨stats2, hwrap⟩ := hWrapGo_spec src dst data.length
      ((data.length + m - 1) / m) id0 m hN1 (chunkSplit m data) 0 (2 ^ 64 - 1, 0, 0)
    rw [Nat.add_zero] at hwrap
    refine ⟨{ src_callsign := src, dst_callsign := dst, max_payload_size := some m,
              encodings := [], next_msg_id := id0 + (chunkSplit m data).length }, ?_⟩
    simp only [PDUGenerator.generate, genLoop, List.map_cons, List.map_nil,
      List.nil_append, List.cons_append, List.append_nil]
    rw [show ([chunkSplit m data] : List (List ByteL)).join = chunkSplit m data from by simp]
    rw [hlenN]
    rw [show Header.setMediaType
      { file_size := some data.length, src_callsign := src, dst_callsign := dst } none =
      c6Tmpl src dst data.length from rfl]
    rw [show (chunkSplit m data).enum = (chunkSplit m data).enumFrom 0 from rfl]
    rw [hwrap]
    simp only [Bind.bind, Except.bind]
    rw [hlenN]
  · simp only [List.length_map]
    rw [show (chunkSplit m data).enum = (chunkSplit m data).enumFrom 0 from rfl]
    rw [show ((chunkSplit m data).enumFrom 0).length = (chunkSplit m data).length from by
      clear hlenN hid hN32
      generalize chunkSplit m data = l
      generalize 0 = n
      induction l generalizing n with
      | nil => rfl
      | cons a t ih => simp [List.enumFrom, ih]]
    exact hlenN
  · intro p hp
    obtain ⟨_, h2, h3⟩ := mem_enumFrom_facts (chunkSplit m data) 0 p hp
    have hp1 : p.1 < (data.length + m - 1) / m := by rw [← hlenN]; omega
    have hplen : p.2.length ≤ m := chunkSplit_mem_length m data p.2 h3
    exact ⟨hp1, c6_unpack src dst m data.length _ id0 p.1 p.2 hsrc hdst hL64
      (by omega) (by omega) (by omega) (by omega) (by omega)⟩

/-- The S2 payload (46 bytes). -/
def s2Data : ByteL := strB "This is a longer message that will be chunked."

/-- Witness for C6 at the S2 values: src `F4JXQ-1`, cap 10, the 46-byte S2
payload, first message id 1 — five chunks with ids 1..5, chunk ids 0..4,
Total-Chunks 5, Original-Message-Id 1. -/
theorem C6_chunking_witness :
    (0 < 10 ∧ 10 < s2Data.length ∧ s2Data.length < 2 ^ 64 ∧
     1 + (s2Data.length + 10 - 1) / 10 < 2 ^ 32 ∧
     (s2Data.length + 10 - 1) / 10 < 2 ^ 32 ∧
     (∀ s ∈ some (strB "F4JXQ-1"), List.length s < 2 ^ 64) ∧
     (∀ s ∈ (none : Option StrB), List.length s < 2 ^ 64)) ∧
    (PDUGenerator.resolveEncodings
        { src_callsign := some (strB "F4JXQ-1"), dst_callsign := none,
          max_payload_size := some 10, encodings := [], next_msg_id := 1 } =
      [.chunk 10, .h] ∧
     (∃ g2, PDUGenerator.generate ext0
        { src_callsign := some (strB "F4JXQ-1"), dst_callsign := none,
          max_payload_size := some 10, encodings := [], next_msg_id := 1 } s2Data none =
       .ok ((chunkSplit 10 s2Data).enum.map (fun p =>
         encodeHeader (c6Header (some (strB "F4JXQ-1")) none 10 s2Data.length
           ((s2Data.length + 10 - 1) / 10) 1 p.1 p.2.length) ++ p.2), g2)) ∧
     ((chunkSplit 10 s2Data).enum.map (fun p =>
       encodeHeader (c6Header (some (strB "F4JXQ-1")) none 10 s2Data.length
         ((s2Data.length + 10 - 1) / 10) 1 p.1 p.2.length) ++ p.2)).length =
       (s2Data.length + 10 - 1) / 10 ∧
     (∀ p ∈ (chunkSplit 10 s2Data).enum,
       p.1 < (s2Data.length + 10 - 1) / 10 ∧
       unpack (encodeHeader (c6Header (some (strB "F4JXQ-1")) none 10 s2Data.length
           ((s2Data.length + 10 - 1) / 10) 1 p.1 p.2.length) ++ p.2) =
         .ok ({ c6Header (some (strB "F4JXQ-1")) none 10 s2Data.length
                ((s2Data.length + 10 - 1) / 10) 1 p.1 p.2.length with
                content_encoding := some [.h] }, p.2))) :=
  ⟨⟨by decide, by decide, by decide, by decide, by decide,
    by
      intro s hs
      rw [Option.mem_def] at hs
      injection hs with h
      rw [← h]
      decide,
    by
      intro s hs
      rw [Option.mem_def] at hs
      cases hs⟩,
   C6_chunking ext0 (some (strB "F4JXQ-1")) none 10 1 s2Data (by decide) (by decide)
     (by decide) (by decide) (by decide)
     (by
       intro s hs
       rw [Option.mem_def] at hs
       injection hs with h
       rw [← h]
       decide)
     (by
       intro s hs
       rw [Option.mem_def] at hs
       cases hs)⟩
